import Mathlib

/-!
# Verification of `roster_tool.py`

A shallow embedding of `.agents/roster_tool.py`: a JSON value type modelling the
Python data the tool manipulates, the `json.dumps(..., indent=2)` serializer and
`json.loads` parser it calls, the markdown renderer `save_roster`, the
marker-based extraction `parse_roster`, and the five dispatcher commands of
`main`, each modelled as a function from the persisted-file state to an
`Except`-result (an uncaught Python exception aborts the invocation before any
later statement, in particular before the file write, which is the last step of
`save_roster`).

Values are restricted to the shapes the roster data model uses (strings,
sequences, objects); JSON numbers, booleans and null never occur in the
documented field sets and are not modelled.  Strings are processed as `List
Char` (Unicode scalar values), matching Python `str` for all inputs free of
lone surrogates.
-/

set_option maxRecDepth 8000

namespace RosterTool

/-- A JSON value as `json.loads`/`json.dumps` handle it, restricted to the
value shapes of the roster data model: strings, arrays, objects.  An object is
its key/value pairs in Python-dict insertion order. -/
inductive JVal where
  | str : String → JVal
  | arr : List JVal → JVal
  | obj : List (String × JVal) → JVal

mutual

/-- Structural equality test on `JVal` (Python `==` between JSON values). -/
def JVal.beq : JVal → JVal → Bool
  | .str s, .str t => s = t
  | .arr l, .arr m => beqList l m
  | .obj l, .obj m => beqPairs l m
  | _, _ => false

def beqList : List JVal → List JVal → Bool
  | [], [] => true
  | v :: vs, w :: ws => v.beq w && beqList vs ws
  | _, _ => false

def beqPairs : List (String × JVal) → List (String × JVal) → Bool
  | [], [] => true
  | (k, v) :: vs, (k', w) :: ws => k = k' && v.beq w && beqPairs vs ws
  | _, _ => false

end

/-- First-match lookup in an object's pair list: Python `d[k]` / `d.get(k)`
(a Python dict has no duplicate keys, so first match is the match). -/
def objGet (k : String) : List (String × JVal) → Option JVal
  | [] => none
  | (k', v) :: rest => if k' = k then some v else objGet k rest

/-- Python `d.get(k, default)`. -/
def objGetD (o : List (String × JVal)) (k : String) (d : JVal) : JVal :=
  (objGet k o).getD d

/-- Python `k in d`. -/
def hasKey (k : String) (o : List (String × JVal)) : Bool :=
  (objGet k o).isSome

/-- Replace the value stored at every pair whose key is `k` (a dict holds it
at most once) with `v`, keeping positions. -/
def setKey (k : String) (v : JVal) : List (String × JVal) → List (String × JVal)
  | [] => []
  | (k', v') :: rest =>
    if k' = k then (k, v) :: setKey k v rest else (k', v') :: setKey k v rest

/-- Python `d[k] = v`: overwrite the value of an existing key in place (keeping
its position), otherwise append the new pair at the end. -/
def dictInsert (o : List (String × JVal)) (k : String) (v : JVal) :
    List (String × JVal) :=
  if hasKey k o then setKey k v o
  else o ++ [(k, v)]

/-- Python `d.update(patch)` for a dict `patch`: `d[k] = v` for each pair of
`patch` in order. -/
def dictUpdate (o : List (String × JVal)) (patch : List (String × JVal)) :
    List (String × JVal) :=
  patch.foldl (fun acc kv => dictInsert acc kv.1 kv.2) o

/-- Python dict construction from a key/value pair sequence (as `json.loads`
builds an object): insert every pair in order, so on duplicate keys the last
value wins at the first occurrence's position. -/
def dictify (l : List (String × JVal)) : List (String × JVal) :=
  dictUpdate [] l

/-- The view of a value as a dict, where Python code that calls a dict method
on it would raise on any other shape. -/
def asObj : JVal → Option (List (String × JVal))
  | .obj o => some o
  | _ => none

/-- Python truthiness of a JSON value: empty string, empty list and empty dict
are falsy (`if not data:`). -/
def pyFalsy : JVal → Bool
  | .str s => s.isEmpty
  | .arr l => l.isEmpty
  | .obj l => l.isEmpty

/-- Python `len` of a JSON value: characters of a string, elements of a list,
keys of a dict. -/
def pyLen : JVal → Nat
  | .str s => s.length
  | .arr l => l.length
  | .obj l => l.length

/-- Python iteration (`for x in v`): a list yields its elements, a string its
one-character strings, a dict its keys. -/
def pyIter : JVal → List JVal
  | .arr l => l
  | .str s => s.data.map (fun c => .str (String.mk [c]))
  | .obj l => l.map (fun kv => .str kv.1)

/-- Python `v == name` for a string `name`: values of non-string shape compare
unequal to a string without raising. -/
def jvalEqStr : JVal → String → Bool
  | .str t, s => t = s
  | _, _ => false

/-- No key occurs twice in the pair list (always true of a list representing an
actual Python dict). -/
def keysNodup : List (String × JVal) → Bool
  | [] => true
  | (k, _) :: rest => !hasKey k rest && keysNodup rest

mutual

/-- Well-formedness of a value as a Python-side JSON datum: every object has
distinct keys (Python dicts cannot hold a key twice). -/
def JVal.wf : JVal → Bool
  | .str _ => true
  | .arr l => wfList l
  | .obj l => keysNodup l && wfPairs l

def wfList : List JVal → Bool
  | [] => true
  | v :: vs => v.wf && wfList vs

def wfPairs : List (String × JVal) → Bool
  | [] => true
  | kv :: kvs => kv.2.wf && wfPairs kvs

end

mutual

/-- Decidable equality on `JVal`, by structural recursion so that concrete
instances evaluate inside the kernel. -/
def JVal.decEq : (a b : JVal) → Decidable (a = b)
  | .str s, .str t =>
    match decEq s t with
    | isTrue h => isTrue (by rw [h])
    | isFalse h => isFalse (by intro hh; injection hh; exact h ‹_›)
  | .str _, .arr _ => isFalse (by intro h; exact JVal.noConfusion h)
  | .str _, .obj _ => isFalse (by intro h; exact JVal.noConfusion h)
  | .arr _, .str _ => isFalse (by intro h; exact JVal.noConfusion h)
  | .arr l, .arr m =>
    match decEqList l m with
    | isTrue h => isTrue (by rw [h])
    | isFalse h => isFalse (by intro hh; injection hh; exact h ‹_›)
  | .arr _, .obj _ => isFalse (by intro h; exact JVal.noConfusion h)
  | .obj _, .str _ => isFalse (by intro h; exact JVal.noConfusion h)
  | .obj _, .arr _ => isFalse (by intro h; exact JVal.noConfusion h)
  | .obj l, .obj m =>
    match decEqPairs l m with
    | isTrue h => isTrue (by rw [h])
    | isFalse h => isFalse (by intro hh; injection hh; exact h ‹_›)

def decEqList : (l m : List JVal) → Decidable (l = m)
  | [], [] => isTrue rfl
  | [], _ :: _ => isFalse (by intro h; exact List.noConfusion h)
  | _ :: _, [] => isFalse (by intro h; exact List.noConfusion h)
  | v :: vs, w :: ws =>
    match JVal.decEq v w with
    | isTrue h1 =>
      match decEqList vs ws with
      | isTrue h2 => isTrue (by rw [h1, h2])
      | isFalse h2 => isFalse (by intro hh; injection hh; exact h2 ‹_›)
    | isFalse h1 => isFalse (by intro hh; injection hh; exact h1 ‹_›)

def decEqPairs : (l m : List (String × JVal)) → Decidable (l = m)
  | [], [] => isTrue rfl
  | [], _ :: _ => isFalse (by intro h; exact List.noConfusion h)
  | _ :: _, [] => isFalse (by intro h; exact List.noConfusion h)
  | (k, v) :: vs, (k', w) :: ws =>
    match decEq k k' with
    | isTrue hk =>
      match JVal.decEq v w with
      | isTrue h1 =>
        match decEqPairs vs ws with
        | isTrue h2 => isTrue (by rw [hk, h1, h2])
        | isFalse h2 => isFalse (by intro hh; injection hh; exact h2 ‹_›)
      | isFalse h1 => isFalse (by
          intro hh; injection hh with hh1 hh2
          exact h1 (congrArg Prod.snd hh1))
    | isFalse hk => isFalse (by
        intro hh; injection hh with hh1 hh2
        exact hk (congrArg Prod.fst hh1))

end

instance : DecidableEq JVal := JVal.decEq

/-! ## The serializer: `json.dumps(data, indent=2)`

Python emits `{`/`[`, a newline and two more spaces of indentation per nesting
level before each item, `,` between items, `": "` after each key, and the
closing bracket on its own line at the enclosing indentation; empty containers
print as `{}`/`[]`.  Characters are emitted verbatim except for the escapes
below; Python additionally `\uXXXX`-escapes other control characters and (with
`ensure_ascii`, the default) non-ASCII characters, which changes only the
byte-level spelling of a string and neither the round-trip property nor any
other claim, and is not modelled. -/

/-- Opening brace character (kept out of string literals). -/
def lbrace : Char := Char.ofNat 123

/-- Closing brace character (kept out of string literals). -/
def rbrace : Char := Char.ofNat 125

/-- `2 * d` spaces: the indentation prefix at nesting depth `d`. -/
def ind (d : Nat) : List Char := List.replicate (2 * d) ' '

/-- JSON string escaping of one character (see the serializer comment above for
the escapes not modelled). -/
def escChar (c : Char) : List Char :=
  if c = '"' then ['\\', '"']
  else if c = '\\' then ['\\', '\\']
  else if c = '\n' then ['\\', 'n']
  else if c = '\t' then ['\\', 't']
  else if c = '\r' then ['\\', 'r']
  else [c]

/-- JSON string escaping of a character sequence. -/
def escStr : List Char → List Char
  | [] => []
  | c :: rest => escChar c ++ escStr rest

/-- A JSON string literal: quote, escaped body, quote. -/
def dumpStr (s : String) : List Char := '"' :: (escStr s.data ++ ['"'])

mutual

/-- `json.dumps(v, indent=2)` at nesting depth `d`, as a character list. -/
def dumpVal : Nat → JVal → List Char
  | _, .str s => dumpStr s
  | _, .arr [] => ['[', ']']
  | d, .arr (v :: vs) =>
    '[' :: ('\n' :: ind (d + 1) ++ dumpVal (d + 1) v ++ dumpArrTail d vs
      ++ '\n' :: ind d ++ [']'])
  | _, .obj [] => [lbrace, rbrace]
  | d, .obj (kv :: kvs) =>
    lbrace :: ('\n' :: ind (d + 1) ++ dumpPair (d + 1) kv ++ dumpObjTail d kvs
      ++ '\n' :: ind d ++ [rbrace])

def dumpArrTail : Nat → List JVal → List Char
  | _, [] => []
  | d, v :: vs => ',' :: '\n' :: ind (d + 1) ++ dumpVal (d + 1) v ++ dumpArrTail d vs

def dumpPair : Nat → String × JVal → List Char
  | d, (k, v) => dumpStr k ++ ':' :: ' ' :: dumpVal d v

def dumpObjTail : Nat → List (String × JVal) → List Char
  | _, [] => []
  | d, kv :: kvs => ',' :: '\n' :: ind (d + 1) ++ dumpPair (d + 1) kv ++ dumpObjTail d kvs

end

/-- `json.dumps(v, indent=2)`. -/
def dumps (v : JVal) : List Char := dumpVal 0 v

/-! ## The parser: `json.loads`

A recursive-descent parser on a character list, structurally recursive on a
fuel counter (one unit per grammar production, so the input length bounds the
fuel needed).  It accepts exactly the JSON texts over the modelled value
shapes: `\uXXXX` escapes (which the serializer above never produces) are not
modelled, and raw control characters inside string literals are accepted
(Python's default strict mode rejects them); neither difference is observable
from any claim. -/

/-- JSON insignificant whitespace (`json.loads` skips these between tokens). -/
def isWsC (c : Char) : Bool := c = ' ' || c = '\n' || c = '\t' || c = '\r'

/-- Drop leading JSON whitespace. -/
def skipWs : List Char → List Char
  | c :: r => if isWsC c then skipWs r else c :: r
  | [] => []

/-- Inverse of the short escapes (plus `\/`, `\b`, `\f`, which the serializer
never emits but `json.loads` accepts). -/
def unescC (e : Char) : Option Char :=
  if e = '"' then some '"'
  else if e = '\\' then some '\\'
  else if e = '/' then some '/'
  else if e = 'n' then some '\n'
  else if e = 't' then some '\t'
  else if e = 'r' then some '\r'
  else if e = 'b' then some (Char.ofNat 8)
  else if e = 'f' then some (Char.ofNat 12)
  else none

/-- Parse a string literal's body after its opening quote, returning the
unescaped characters and the input after the closing quote. -/
def parseStrBody : List Char → Option (List Char × List Char)
  | [] => none
  | c :: rest =>
    if c = '"' then some ([], rest)
    else if c = '\\' then
      match rest with
      | [] => none
      | e :: rest2 =>
        match unescC e with
        | some c2 => (parseStrBody rest2).map (fun p => (c2 :: p.1, p.2))
        | none => none
    else (parseStrBody rest).map (fun p => (c :: p.1, p.2))

mutual

/-- Parse one JSON value (leading whitespace allowed), returning it and the
unconsumed input. -/
def parseVal : Nat → List Char → Option (JVal × List Char)
  | 0, _ => none
  | fuel + 1, s =>
    match skipWs s with
    | [] => none
    | c :: r =>
      if c = '"' then (parseStrBody r).map (fun p => (JVal.str (String.mk p.1), p.2))
      else if c = '[' then
        match skipWs r with
        | [] => none
        | c2 :: r2 =>
          if c2 = ']' then some (.arr [], r2)
          else
            match parseVal fuel r with
            | some (v, r3) =>
              match parseArrTail fuel r3 with
              | some (vs, r4) => some (.arr (v :: vs), r4)
              | none => none
            | none => none
      else if c = lbrace then
        match skipWs r with
        | [] => none
        | c2 :: r2 =>
          if c2 = rbrace then some (.obj [], r2)
          else
            match parseMember fuel r with
            | some (kv, r3) =>
              match parseObjTail fuel r3 with
              | some (kvs, r4) => some (.obj (dictify (kv :: kvs)), r4)
              | none => none
            | none => none
      else none

/-- After one array element: `,` and another element, or the closing `]`. -/
def parseArrTail : Nat → List Char → Option (List JVal × List Char)
  | 0, _ => none
  | fuel + 1, s =>
    match skipWs s with
    | [] => none
    | c :: r =>
      if c = ']' then some ([], r)
      else if c = ',' then
        match parseVal fuel r with
        | some (v, r2) =>
          match parseArrTail fuel r2 with
          | some (vs, r3) => some (v :: vs, r3)
          | none => none
        | none => none
      else none

/-- One `"key": value` object member. -/
def parseMember : Nat → List Char → Option ((String × JVal) × List Char)
  | 0, _ => none
  | fuel + 1, s =>
    match skipWs s with
    | [] => none
    | c :: r =>
      if c = '"' then
        match parseStrBody r with
        | some (k, r2) =>
          match skipWs r2 with
          | [] => none
          | c2 :: r3 =>
            if c2 = ':' then
              match parseVal fuel r3 with
              | some (v, r4) => some ((String.mk k, v), r4)
              | none => none
            else none
        | none => none
      else none

/-- After one object member: `,` and another member, or the closing brace. -/
def parseObjTail : Nat → List Char → Option (List (String × JVal) × List Char)
  | 0, _ => none
  | fuel + 1, s =>
    match skipWs s with
    | [] => none
    | c :: r =>
      if c = rbrace then some ([], r)
      else if c = ',' then
        match parseMember fuel r with
        | some (kv, r2) =>
          match parseObjTail fuel r2 with
          | some (kvs, r3) => some (kv :: kvs, r3)
          | none => none
        | none => none
      else none

end

/-- `json.loads`: parse a complete document, requiring only whitespace after
the value; `none` is Python's `json.JSONDecodeError`. -/
def loads (s : List Char) : Option JVal :=
  match parseVal (s.length + 1) s with
  | some (v, rest) => if skipWs rest = [] then some v else none
  | none => none

mutual

/-- Number of grammar productions in a value: a fuel bound for the parser. -/
def jsize : JVal → Nat
  | .str _ => 1
  | .arr l => 1 + jsizeL l
  | .obj l => 1 + jsizeP l

def jsizeL : List JVal → Nat
  | [] => 0
  | v :: vs => 1 + jsize v + jsizeL vs

def jsizeP : List (String × JVal) → Nat
  | [] => 0
  | kv :: kvs => 1 + jsize kv.2 + jsizeP kvs

end

/-! ## `parse_roster`: extraction of the embedded block

`parse_roster` tests `"<!-- ROSTER_JSON:" in content` and then computes
`content.split("<!-- ROSTER_JSON:")[1].split("-->")[0]`: Python `str.split`
cuts at every non-overlapping occurrence of the separator, left to right. -/

/-- Python `sep in s` for a nonempty separator. -/
def hasSubstr (sep : List Char) : List Char → Bool
  | [] => sep.isEmpty
  | c :: t => sep.isPrefixOf (c :: t) || hasSubstr sep t

/-- Python `s.split(sep)` for a nonempty `sep`, structurally recursive on a
fuel counter (`s.length` steps always suffice: every step consumes at least
one character). -/
def pySplit (sep : List Char) : Nat → List Char → List (List Char)
  | _, [] => [[]]
  | 0, s => [s]
  | fuel + 1, c :: t =>
    if sep.isPrefixOf (c :: t) then
      [] :: pySplit sep fuel (t.drop (sep.length - 1))
    else
      match pySplit sep fuel t with
      | h :: r => (c :: h) :: r
      | [] => [[c]]

/-- Python `s.split(sep)`. -/
def pySplitStr (sep s : List Char) : List (List Char) := pySplit sep s.length s

/-- The fixed marker token opening the embedded block. -/
def MARKER : List Char := "<!-- ROSTER_JSON:".data

/-- The fixed end token closing the embedded block. -/
def ENDTOK : List Char := "-->".data

/-- `content.split("<!-- ROSTER_JSON:")[1].split("-->")[0]`: the candidate
JSON text between the first marker occurrence and the next end token.  The
defaults of `getD`/`headD` are unreachable at the call site: `parse_roster`
indexes `[1]` only after checking the marker occurs, which guarantees the
first split has at least two parts, and a Python `split` result is never
empty. -/
def extractBlock (content : List Char) : List Char :=
  (pySplitStr ENDTOK ((pySplitStr MARKER content).getD 1 [])).headD []

/-- `parse_roster()`, as a function of the persisted file's content (`none`
when no file exists).  `.error ()` is the `json.JSONDecodeError` that
`json.loads` raises on a malformed embedded block, propagated to the caller. -/
def parse_roster (file : Option (List Char)) : Except Unit JVal :=
  match file with
  | none => .ok (.obj [])
  | some content =>
    if hasSubstr MARKER content then
      match loads (extractBlock content) with
      | some v => .ok v
      | none => .error ()
    else .ok (.obj [])

/-! ## `save_roster`: the markdown rendering

The document text is built in full before the single file write, so a Python
exception while rendering (an `AttributeError`/`TypeError` from calling a dict
method on a value of the wrong shape) leaves the persisted file untouched;
rendering is therefore modelled as an `Option`, `none` exactly where the
Python raises. -/

/-- Single-quote character (kept out of string literals). -/
def squote : Char := Char.ofNat 39

mutual

/-- Python `repr` of a JSON value, as f-string interpolation renders lists and
dicts.  The quote-selection and escaping Python applies inside `repr` of a
string are simplified to bare single quotes; this text is only ever decorative
prose and no claim depends on it. -/
def pyRepr : JVal → List Char
  | .str s => squote :: (s.data ++ [squote])
  | .arr [] => ['[', ']']
  | .arr (v :: vs) => '[' :: (pyRepr v ++ pyReprArrTail vs ++ [']'])
  | .obj [] => [lbrace, rbrace]
  | .obj (kv :: kvs) =>
    lbrace :: (pyReprPair kv ++ pyReprObjTail kvs ++ [rbrace])

def pyReprArrTail : List JVal → List Char
  | [] => []
  | v :: vs => ',' :: ' ' :: (pyRepr v ++ pyReprArrTail vs)

def pyReprPair : String × JVal → List Char
  | (k, v) => squote :: (k.data ++ [squote, ':', ' ']) ++ pyRepr v

def pyReprObjTail : List (String × JVal) → List Char
  | [] => []
  | kv :: kvs => ',' :: ' ' :: (pyReprPair kv ++ pyReprObjTail kvs)

end

/-- Python `str(v)` as an f-string renders a value: a string is itself, any
other value renders as its `repr`. -/
def pyStrV : JVal → List Char
  | .str s => s.data
  | .arr l => pyRepr (.arr l)
  | .obj l => pyRepr (.obj l)

/-- Rendering of `d.get(k)` with no default: a missing key is Python `None`,
which an f-string renders as the text `None`. -/
def pyStrOptV : Option JVal → List Char
  | some v => pyStrV v
  | none => "None".data

/-- One bulleted sub-list: `"  - {q}\n"` for each element Python iteration
yields from the value. -/
def bulletItems (v : JVal) : List Char :=
  ((pyIter v).map (fun q => "  - ".data ++ pyStrV q ++ ['\n'])).flatten

/-- The `"- {entry}\n"` lines of the Rotation History section. -/
def historyLines (v : JVal) : List Char :=
  ((pyIter v).map (fun e => "- ".data ++ pyStrV e ++ ['\n'])).flatten

/-- The Meta Persona section: four labeled lines; `name` defaults to
`Roster Steward`, the other three to the empty string.  Each line of the
Python `md += f"..."` sequence is one appended segment. -/
def metaBlock (meta : List (String × JVal)) : List Char :=
  "## Meta Persona\n".data
    ++ (("- **Name:** ".data
        ++ (pyStrV (objGetD meta "name" (.str "Roster Steward")) ++ ['\n']))
    ++ (("- **Mandate:** ".data
        ++ (pyStrV (objGetD meta "mandate" (.str "")) ++ ['\n']))
    ++ (("- **Rotation Rules:** ".data
        ++ (pyStrV (objGetD meta "rotation_rules" (.str "")) ++ ['\n']))
    ++ ("- **Checks:** ".data
        ++ (pyStrV (objGetD meta "checks" (.str "")) ++ ['\n', '\n'])))))

/-- The four labeled lines of a persona's Ledger sub-block, each defaulting to
the empty string. -/
def ledgerBlock (ledger : List (String × JVal)) : List Char :=
  "- **Ledger:**\n".data
    ++ (("  - **Current stance:** ".data
        ++ (pyStrV (objGetD ledger "current_stance" (.str "")) ++ ['\n']))
    ++ (("  - **Warnings:** ".data
        ++ (pyStrV (objGetD ledger "warnings" (.str "")) ++ ['\n']))
    ++ (("  - **Open questions:** ".data
        ++ (pyStrV (objGetD ledger "open_questions" (.str "")) ++ ['\n']))
    ++ ("  - **Last updated:** ".data
        ++ (pyStrV (objGetD ledger "last_updated" (.str "")) ++ ['\n', '\n'])))))

/-- One persona's numbered subsection.  `p.get('name')` has no default (a
missing name renders as `None`); the `ledger` value must be a dict or the
Python `ledger.get` calls raise. -/
def personaBlock (i : Nat) (p : List (String × JVal)) : Option (List Char) :=
  match asObj (objGetD p "ledger" (.obj [])) with
  | none => none
  | some ledger =>
    some (("### ".data ++ ((Nat.repr i).data ++ (") ".data
        ++ (pyStrOptV (objGet "name" p) ++ ['\n']))))
      ++ (("- **Role:** ".data ++ (pyStrV (objGetD p "role" (.str "")) ++ ['\n']))
      ++ (("- **Mandate:** ".data ++ (pyStrV (objGetD p "mandate" (.str "")) ++ ['\n']))
      ++ (("- **Trust Model:** ".data
          ++ (pyStrV (objGetD p "trust_model" (.str "")) ++ ['\n']))
      ++ ("- **Key Questions:**\n".data
      ++ (bulletItems (objGetD p "key_questions" (.arr []))
      ++ ("- **Always-Flags:**\n".data
      ++ (bulletItems (objGetD p "always_flags" (.arr []))
      ++ (("- **Blind Spots:** ".data
          ++ (pyStrV (objGetD p "blind_spots" (.str "")) ++ ['\n']))
      ++ ledgerBlock ledger)))))))))

/-- The numbered persona subsections from index `i` on; every element Python
iteration yields must be a dict or its `p.get` calls raise. -/
def personasBlocks (i : Nat) : List JVal → Option (List Char)
  | [] => some []
  | p :: rest =>
    match asObj p with
    | none => none
    | some po =>
      match personaBlock i po with
      | none => none
      | some blk =>
        match personasBlocks (i + 1) rest with
        | none => none
        | some restBlk => some (blk ++ restBlk)

/-- One tension's four labeled lines; all four `tension.get` calls have no
default, so every missing field renders as `None`. -/
def tensionBlock (t : List (String × JVal)) : List Char :=
  ("- Tension: ".data ++ (pyStrOptV (objGet "description" t) ++ ['\n']))
    ++ (("  - Options: ".data ++ (pyStrOptV (objGet "options" t) ++ ['\n']))
    ++ (("  - Current resolution: ".data
        ++ (pyStrOptV (objGet "resolution" t) ++ ['\n']))
    ++ ("  - Residual risk: ".data ++ (pyStrOptV (objGet "residual_risk" t) ++ ['\n']))))

/-- The Open Tensions section body; every element must be a dict. -/
def tensionsBlocks : List JVal → Option (List Char)
  | [] => some []
  | t :: rest =>
    match asObj t with
    | none => none
    | some to_ =>
      match tensionsBlocks rest with
      | none => none
      | some restBlk => some (tensionBlock to_ ++ restBlk)

/-- Everything `save_roster` renders before the embedded block: title, Meta
Persona section, Active Personas section, Rotation History, Open Tensions. -/
def renderProse (data : JVal) : Option (List Char) :=
  match asObj data with
  | none => none
  | some d =>
    match asObj (objGetD d "meta" (.obj [])) with
    | none => none
    | some meta =>
      match personasBlocks 1 (pyIter (objGetD d "personas" (.arr []))) with
      | none => none
      | some pBlk =>
        match tensionsBlocks (pyIter (objGetD d "tensions" (.arr []))) with
        | none => none
        | some tBlk =>
          some ("# Persona Roster (Persistent)\n\n".data
            ++ (metaBlock meta
            ++ ("## Active Personas (4–7 total including Meta)\n\n".data
            ++ (pBlk
            ++ ("## Rotation History\n".data
            ++ (historyLines (objGetD d "rotation_history" (.arr []))
            ++ ("\n".data
            ++ ("## Open Tensions / Tradeoffs\n".data
            ++ tBlk))))))))

/-- The embedded machine-readable block appended last:
`f"\n<!-- ROSTER_JSON:\n{json.dumps(data, indent=2)}\n-->"`. -/
def jsonBlock (data : JVal) : List Char :=
  '\n' :: MARKER ++ '\n' :: dumps data ++ '\n' :: ENDTOK

/-- `save_roster(data)`: the full document text the function writes, or `none`
where rendering raises (before any write). -/
def save_roster (data : JVal) : Option (List Char) :=
  match renderProse data with
  | none => none
  | some prose => some (prose ++ jsonBlock data)

/-! ## The command dispatcher (`main`)

Each command is a function of the persisted file's content (`none` when the
file does not exist) returning either the Python exception that aborts the
invocation or the command's effects: the document text written (if any), the
lines printed, and the exit status.  `main` always loads first
(`data = parse_roster()`, then the default scaffold if falsy), and a mutating
command writes only as the final step of `save_roster`, so an error anywhere
leaves the file as it was. -/

/-- The uncaught Python exceptions the tool can raise. -/
inductive PyErr where
  /-- `json.JSONDecodeError` from `json.loads` on `--patch`/`--spec`. -/
  | parseError
  /-- `json.JSONDecodeError` from the embedded block, raised in `parse_roster`. -/
  | decodeError
  /-- `KeyError`: `data["personas"]` or `p["name"]` on a dict without the key. -/
  | keyError
  /-- `TypeError`/`AttributeError`: an operation on a value of the wrong shape. -/
  | typeError
deriving DecidableEq

/-- A completed invocation: the document text written (`none` for read-only
commands), the printed lines, and the exit status. -/
structure CmdResult where
  written : Option (List Char)
  output : List (List Char)
  exitCode : Nat
deriving DecidableEq

instance {ε α : Type} [DecidableEq ε] [DecidableEq α] : DecidableEq (Except ε α) := fun a b =>
  match a, b with
  | .ok x, .ok y =>
    if h : x = y then isTrue (by rw [h])
    else isFalse (by intro hh; injection hh; exact h ‹_›)
  | .ok _, .error _ => isFalse (by intro h; exact Except.noConfusion h)
  | .error _, .ok _ => isFalse (by intro h; exact Except.noConfusion h)
  | .error x, .error y =>
    if h : x = y then isTrue (by rw [h])
    else isFalse (by intro hh; injection hh; exact h ‹_›)

/-- The default scaffold `main` constructs when the loaded data is falsy. -/
def defaultRoster : JVal :=
  .obj [("meta", .obj [
      ("name", .str "Roster Steward"),
      ("mandate", .str "Govern roster stability, decide when to rotate personas, and enforce protocol quality gates."),
      ("rotation_rules", .str "Max 1 swap per user turn; default is stability; rotate on domain shift or repeated failure modes."),
      ("checks", .str "Calibration (atomic/compound/systemic), utilization (no theater), decision trace required, red-team required when warranted.")]),
    ("personas", .arr []),
    ("rotation_history", .arr []),
    ("tensions", .arr [])]

/-- `data = parse_roster()` followed by `if not data: data = {default}`. -/
def loadData (st : Option (List Char)) : Except PyErr JVal :=
  match parse_roster st with
  | .error _ => .error .decodeError
  | .ok d => .ok (if pyFalsy d then defaultRoster else d)

/-- The `update-persona` loop: walk the personas, and at the first element
whose `name` equals the given name, `p.update(patch)` and stop.  An element
that is not a dict makes `p["name"]` a `TypeError`; a dict without `"name"`
makes it a `KeyError`; a patch that is not a dict makes `p.update(patch)`
raise (Python also accepts a sequence of pairs there, which no command-line
use produces; modelled as the error). -/
def updateLoop (name : String) (patch : JVal) : List JVal → Except PyErr (List JVal)
  | [] => .ok []
  | p :: rest =>
    match p with
    | .obj po =>
      match objGet "name" po with
      | none => .error .keyError
      | some v =>
        if jvalEqStr v name then
          match asObj patch with
          | some patchO => .ok (.obj (dictUpdate po patchO) :: rest)
          | none => .error .typeError
        else
          match updateLoop name patch rest with
          | .ok rest' => .ok (p :: rest')
          | .error e => .error e
    | _ => .error .typeError

/-- The `update-ledger` loop: at the first name match,
`p.setdefault("ledger", {}).update(patch)` and stop.  An existing `ledger`
value that is not a dict makes the `.update` an `AttributeError`. -/
def ledgerLoop (name : String) (patch : JVal) : List JVal → Except PyErr (List JVal)
  | [] => .ok []
  | p :: rest =>
    match p with
    | .obj po =>
      match objGet "name" po with
      | none => .error .keyError
      | some v =>
        if jvalEqStr v name then
          match asObj patch with
          | none => .error .typeError
          | some patchO =>
            match objGet "ledger" po with
            | some (.obj lo) =>
              .ok (.obj (dictInsert po "ledger" (.obj (dictUpdate lo patchO))) :: rest)
            | some _ => .error .typeError
            | none =>
              .ok (.obj (po ++ [("ledger", .obj (dictUpdate [] patchO))]) :: rest)
        else
          match ledgerLoop name patch rest with
          | .ok rest' => .ok (p :: rest')
          | .error e => .error e
    | _ => .error .typeError

/-- `for p in data["personas"]: ...` around one of the loops above, writing
the (possibly unchanged) element list back.  `data["personas"]` is a
`KeyError` when absent and requires a dict `data`; iterating a nonempty
string or dict yields non-dict elements, on which the loop body raises, while
iterating an empty one runs zero iterations and leaves `data` untouched. -/
def updatePersonasField (loop : List JVal → Except PyErr (List JVal)) (data : JVal) :
    Except PyErr JVal :=
  match data with
  | .obj d =>
    match objGet "personas" d with
    | none => .error .keyError
    | some (.arr l) =>
      match loop l with
      | .ok l' => .ok (.obj (dictInsert d "personas" (.arr l')))
      | .error e => .error e
    | some (.str s) => if s.isEmpty then .ok data else .error .typeError
    | some (.obj o) => if o.isEmpty then .ok data else .error .typeError
  | _ => .error .typeError

/-- `data["personas"].append(spec)`: requires a dict `data` holding a list at
`"personas"` (`.append` on a string or dict is an `AttributeError`). -/
def addPersonaData (spec : JVal) (data : JVal) : Except PyErr JVal :=
  match data with
  | .obj d =>
    match objGet "personas" d with
    | none => .error .keyError
    | some (.arr l) => .ok (.obj (dictInsert d "personas" (.arr (l ++ [spec]))))
    | some _ => .error .typeError
  | _ => .error .typeError

/-- The `get` command: print the data, write nothing. -/
def runGet (st : Option (List Char)) : Except PyErr CmdResult :=
  match loadData st with
  | .error e => .error e
  | .ok data => .ok ⟨none, [dumps data], 0⟩

/-- The `validate` command: `len(data.get("personas", [])) < 3` prints the
failure diagnostic and exits 1, otherwise it prints the confirmation and falls
off the end of `main` with status 0; nothing is written either way. -/
def runValidate (st : Option (List Char)) : Except PyErr CmdResult :=
  match loadData st with
  | .error e => .error e
  | .ok data =>
    match asObj data with
    | none => .error .typeError
    | some d =>
      if pyLen (objGetD d "personas" (.arr [])) < 3 then
        .ok ⟨none, ["Validation failed: At least 3 personas required for non-atomic tasks.".data], 1⟩
      else
        .ok ⟨none, ["Validation passed.".data], 0⟩

/-- The `update-persona` command: load, `json.loads(args.patch)`, run the
update loop, `save_roster`. -/
def runUpdatePersona (name : String) (patchText : List Char) (st : Option (List Char)) :
    Except PyErr CmdResult :=
  match loadData st with
  | .error e => .error e
  | .ok data =>
    match loads patchText with
    | none => .error .parseError
    | some patch =>
      match updatePersonasField (updateLoop name patch) data with
      | .error e => .error e
      | .ok data' =>
        match save_roster data' with
        | none => .error .typeError
        | some md => .ok ⟨some md, [], 0⟩

/-- The `add-persona` command: load, `json.loads(args.spec)`, append,
`save_roster`. -/
def runAddPersona (specText : List Char) (st : Option (List Char)) :
    Except PyErr CmdResult :=
  match loadData st with
  | .error e => .error e
  | .ok data =>
    match loads specText with
    | none => .error .parseError
    | some spec =>
      match addPersonaData spec data with
      | .error e => .error e
      | .ok data' =>
        match save_roster data' with
        | none => .error .typeError
        | some md => .ok ⟨some md, [], 0⟩

/-- The `update-ledger` command: load, `json.loads(args.patch)`, run the
ledger loop, `save_roster`. -/
def runUpdateLedger (name : String) (patchText : List Char) (st : Option (List Char)) :
    Except PyErr CmdResult :=
  match loadData st with
  | .error e => .error e
  | .ok data =>
    match loads patchText with
    | none => .error .parseError
    | some patch =>
      match updatePersonasField (ledgerLoop name patch) data with
      | .error e => .error e
      | .ok data' =>
        match save_roster data' with
        | none => .error .typeError
        | some md => .ok ⟨some md, [], 0⟩

/-- A persona element the update loops inspect and pass over without raising:
a dict whose `name` value differs from the given name. -/
def missName (name : String) (p : JVal) : Prop :=
  ∃ po v, p = JVal.obj po ∧ objGet "name" po = some v ∧ jvalEqStr v name = false

/-- The persisted file's content after an invocation: what the command wrote,
or the previous content when it wrote nothing or an exception aborted it. -/
def fileAfter (st : Option (List Char)) (r : Except PyErr CmdResult) :
    Option (List Char) :=
  match r with
  | .ok res =>
    match res.written with
    | some md => some md
    | none => st
  | .error _ => st

/-- decode ∘ encode: the document produced by `save_roster`, read back through
`parse_roster` (`none` when either side fails). -/
def roundTrip (data : JVal) : Option JVal :=
  match save_roster data with
  | none => none
  | some md =>
    match parse_roster (some md) with
    | .ok v => some v
    | .error _ => none

/-! ## Substring occurrence lemmas -/

theorem hasSubstr_iff (sep : List Char) :
    ∀ s : List Char, hasSubstr sep s = true ↔ ∃ i, sep <+: s.drop i
  | [] => by
    simp only [hasSubstr, List.isEmpty_iff, List.drop_nil, List.prefix_nil]
    exact ⟨fun h => ⟨0, h⟩, fun ⟨_, h⟩ => h⟩
  | c :: t => by
    simp only [hasSubstr, Bool.or_eq_true, List.isPrefixOf_iff_prefix,
      hasSubstr_iff sep t]
    constructor
    · rintro (h | ⟨i, h⟩)
      · exact ⟨0, h⟩
      · exact ⟨i + 1, by simpa using h⟩
    · rintro ⟨i, h⟩
      match i with
      | 0 => exact Or.inl h
      | i + 1 => exact Or.inr ⟨i, by simpa using h⟩

theorem hasSubstr_of_pref_drop {sep s : List Char} (i : Nat) (h : sep <+: s.drop i) :
    hasSubstr sep s = true :=
  (hasSubstr_iff sep s).mpr ⟨i, h⟩

theorem hasSubstr_of_pref {sep s : List Char} (h : sep <+: s) :
    hasSubstr sep s = true :=
  hasSubstr_of_pref_drop 0 h

theorem hasSubstr_append_right (sep x y : List Char) (h : hasSubstr sep y = true) :
    hasSubstr sep (x ++ y) = true := by
  obtain ⟨i, hp⟩ := (hasSubstr_iff sep y).mp h
  exact hasSubstr_of_pref_drop (x.length + i) (by rwa [List.drop_append])

theorem hasSubstr_append_left (sep x y : List Char) (h : hasSubstr sep x = true) :
    hasSubstr sep (x ++ y) = true := by
  obtain ⟨i, hp⟩ := (hasSubstr_iff sep x).mp h
  refine hasSubstr_of_pref_drop i ?_
  rw [List.drop_append_eq_append_drop]
  exact hp.trans (List.prefix_append _ _)

/-- A prefix of `x ++ y` no longer than `x` is a prefix of `x`. -/
theorem pref_of_append_long {p x y : List Char} (h : p <+: x ++ y)
    (hl : p.length ≤ x.length) : p <+: x :=
  List.prefix_of_prefix_length_le h (List.prefix_append x y) hl

/-- A prefix of `x ++ y` at least as long as `x` extends `x`. -/
theorem pref_of_append_short {p x y : List Char} (h : p <+: x ++ y)
    (hl : x.length ≤ p.length) : x <+: p :=
  List.prefix_of_prefix_length_le (List.prefix_append x y) h hl

/-- An occurrence of `sep` in `x ++ c :: y` with `c ∉ sep` cannot cross the
`c` boundary: it lies in `x` or in `y`. -/
theorem hasSubstr_append_cons (sep : List Char) (c : Char) (hc : c ∉ sep) :
    ∀ x y : List Char, hasSubstr sep (x ++ c :: y) = true →
      hasSubstr sep x = true ∨ hasSubstr sep y = true
  | [], y, h => by
    simp only [List.nil_append, hasSubstr, Bool.or_eq_true,
      List.isPrefixOf_iff_prefix] at h
    cases h with
    | inl h =>
      match sep, h with
      | [], _ => exact Or.inl rfl
      | s0 :: sep', h =>
        obtain ⟨rfl, -⟩ := List.cons_prefix_cons.mp h
        exact absurd (List.mem_cons_self _ _) hc
    | inr h => exact Or.inr h
  | a :: x', y, h => by
    simp only [List.cons_append, hasSubstr, Bool.or_eq_true,
      List.isPrefixOf_iff_prefix] at h
    cases h with
    | inl h =>
      have h : sep <+: (a :: x') ++ c :: y := by simpa using h
      by_cases hl : sep.length ≤ (a :: x').length
      · exact Or.inl (hasSubstr_of_pref (pref_of_append_long h hl))
      · exfalso
        have h2 : (a :: x') ++ [c] <+: sep := by
          refine pref_of_append_short (y := y) ?_ ?_
          · simpa [List.append_assoc] using h
          · simp only [List.length_append, List.length_cons, List.length_nil] at hl ⊢
            omega
        exact hc (h2.subset (by simp))
    | inr h =>
      rcases hasSubstr_append_cons sep c hc x' y h with h' | h'
      · exact Or.inl (by simp [hasSubstr, h'])
      · exact Or.inr h'

/-! ## `str.split` lemmas -/

theorem pySplit_nil (sep : List Char) (fuel : Nat) : pySplit sep fuel [] = [[]] := by
  cases fuel <;> rfl

/-- `pySplit` does not depend on the fuel once it covers the input length. -/
theorem pySplit_fuelInv (sep : List Char) :
    ∀ (fuel fuel' : Nat) (s : List Char), s.length ≤ fuel → s.length ≤ fuel' →
      pySplit sep fuel s = pySplit sep fuel' s := by
  intro fuel
  induction fuel with
  | zero =>
    intro fuel' s hs _
    have : s = [] := List.eq_nil_of_length_eq_zero (Nat.le_zero.mp hs)
    subst this
    rw [pySplit_nil, pySplit_nil]
  | succ f ih =>
    intro fuel' s hs hs'
    match s with
    | [] => rw [pySplit_nil, pySplit_nil]
    | c :: t =>
      match fuel' with
      | 0 => simp at hs'
      | f' + 1 =>
        simp only [pySplit]
        by_cases hp : sep.isPrefixOf (c :: t)
        · simp only [if_pos hp]
          rw [ih f' (t.drop (sep.length - 1))
            (by simp only [List.length_drop]; simp at hs; omega)
            (by simp only [List.length_drop]; simp at hs'; omega)]
        · simp only [if_neg hp]
          rw [ih f' t (by simp at hs; omega) (by simp at hs'; omega)]

/-- A text without any occurrence of the separator splits into one piece. -/
theorem pySplit_noOcc (sep : List Char) :
    ∀ (fuel : Nat) (s : List Char), s.length ≤ fuel →
      (∀ i, ¬ sep <+: s.drop i) → pySplit sep fuel s = [s] := by
  intro fuel
  induction fuel with
  | zero =>
    intro s hs _
    have : s = [] := List.eq_nil_of_length_eq_zero (Nat.le_zero.mp hs)
    subst this
    rw [pySplit_nil]
  | succ f ih =>
    intro s hs h
    match s with
    | [] => rw [pySplit_nil]
    | c :: t =>
      have h0 : ¬ sep.isPrefixOf (c :: t) := by
        rw [List.isPrefixOf_iff_prefix]
        exact fun hp => h 0 (by simpa using hp)
      simp only [pySplit, if_neg h0]
      rw [ih t (by simp at hs; omega) (fun i => by simpa using h (i + 1))]

/-- Splitting at the first separator occurrence: if no occurrence starts
inside `a`, the split of `a ++ sep ++ b` is `a` followed by the split of `b`. -/
theorem pySplit_splitAt (sep : List Char) (hsep : sep ≠ []) :
    ∀ (a b : List Char) (fuel : Nat), (a ++ (sep ++ b)).length ≤ fuel →
      (∀ i, i < a.length → ¬ sep <+: (a ++ (sep ++ b)).drop i) →
      pySplit sep fuel (a ++ (sep ++ b)) = a :: pySplit sep b.length b := by
  intro a
  induction a with
  | nil =>
    intro b fuel hf _
    match sep, hsep with
    | c0 :: sep', _ =>
      match fuel with
      | 0 => simp at hf
      | f + 1 =>
        have hp : (c0 :: sep').isPrefixOf (c0 :: (sep' ++ b)) := by
          rw [List.isPrefixOf_iff_prefix]
          exact ⟨b, by simp⟩
        simp only [List.nil_append, List.cons_append, pySplit, List.append_eq, if_pos hp]
        congr 1
        have hd : (sep' ++ b).drop ((c0 :: sep').length - 1) = b := by
          simp only [List.length_cons, Nat.add_sub_cancel]
          exact List.drop_left' rfl
        rw [hd]
        exact pySplit_fuelInv (c0 :: sep') f b.length b (by simp at hf ⊢; omega) le_rfl
  | cons c a' ih =>
    intro b fuel hf h
    match fuel with
    | 0 => simp at hf
    | f + 1 =>
      have h0 : ¬ sep.isPrefixOf (c :: (a' ++ (sep ++ b))) := by
        rw [List.isPrefixOf_iff_prefix]
        exact fun hp => h 0 (by simp) (by simpa using hp)
      simp only [List.cons_append, pySplit, List.append_eq, if_neg h0]
      rw [ih b f (by simp at hf ⊢; omega)
        (fun i hi => by simpa using h (i + 1) (by simp; omega))]

/-! ## Parser-inversion lemmas: `loads` undoes `dumps` -/

theorem skipWs_ws_append (ws : List Char) (h : ∀ c ∈ ws, isWsC c = true) :
    ∀ s, skipWs (ws ++ s) = skipWs s := by
  induction ws with
  | nil => intro s; rfl
  | cons c ws' ih =>
    intro s
    have hc : isWsC c = true := h c (List.mem_cons_self _ _)
    simp only [List.cons_append, skipWs, if_pos hc]
    exact ih (fun x hx => h x (List.mem_cons_of_mem _ hx)) s

theorem skipWs_not_ws {c : Char} (h : isWsC c = false) (s : List Char) :
    skipWs (c :: s) = c :: s := by
  simp [skipWs, h]

/-- The whitespace run `dumps` inserts before an item. -/
theorem nlind_ws (d : Nat) : ∀ c ∈ '\n' :: ind d, isWsC c = true := by
  intro c hc
  rcases List.mem_cons.mp hc with rfl | hc
  · rfl
  · rw [List.eq_of_mem_replicate hc]
    rfl

/-- Every serialized value starts with `"` or a bracket: not whitespace, and
not one of the container-closing characters. -/
theorem dumpVal_cons (d : Nat) (v : JVal) :
    ∃ c t, dumpVal d v = c :: t ∧ isWsC c = false ∧ c ≠ ']' ∧ c ≠ rbrace := by
  match v with
  | .str s => exact ⟨'"', _, rfl, by decide, by decide, by decide⟩
  | .arr [] => exact ⟨'[', _, rfl, by decide, by decide, by decide⟩
  | .arr (v :: vs) => exact ⟨'[', _, rfl, by decide, by decide, by decide⟩
  | .obj [] => exact ⟨lbrace, _, rfl, by decide, by decide, by decide⟩
  | .obj (kv :: kvs) => exact ⟨lbrace, _, rfl, by decide, by decide, by decide⟩

/-- Parsing a string-literal body undoes the escaping. -/
theorem parseStrBody_inv : ∀ (cs rest : List Char),
    parseStrBody (escStr cs ++ '"' :: rest) = some (cs, rest)
  | [], rest => by
    rw [show escStr [] ++ '"' :: rest = '"' :: rest from rfl, parseStrBody.eq_def]
    simp
  | c :: cs, rest => by
    have ih := parseStrBody_inv cs rest
    by_cases h1 : c = '"'
    · subst h1
      rw [show escStr ('"' :: cs) ++ '"' :: rest
            = '\\' :: '"' :: (escStr cs ++ '"' :: rest) from by simp [escStr, escChar],
        parseStrBody.eq_def]
      simp [unescC, ih]
    · by_cases h2 : c = '\\'
      · subst h2
        rw [show escStr ('\\' :: cs) ++ '"' :: rest
              = '\\' :: '\\' :: (escStr cs ++ '"' :: rest) from by simp [escStr, escChar],
          parseStrBody.eq_def]
        simp [unescC, ih]
      · by_cases h3 : c = '\n'
        · subst h3
          rw [show escStr ('\n' :: cs) ++ '"' :: rest
                = '\\' :: 'n' :: (escStr cs ++ '"' :: rest) from by simp [escStr, escChar],
            parseStrBody.eq_def]
          simp [unescC, ih]
        · by_cases h4 : c = '\t'
          · subst h4
            rw [show escStr ('\t' :: cs) ++ '"' :: rest
                  = '\\' :: 't' :: (escStr cs ++ '"' :: rest) from by simp [escStr, escChar],
              parseStrBody.eq_def]
            simp [unescC, ih]
          · by_cases h5 : c = '\r'
            · subst h5
              rw [show escStr ('\r' :: cs) ++ '"' :: rest
                    = '\\' :: 'r' :: (escStr cs ++ '"' :: rest) from by
                      simp [escStr, escChar],
                parseStrBody.eq_def]
              simp [unescC, ih]
            · rw [show escStr (c :: cs) ++ '"' :: rest
                    = c :: (escStr cs ++ '"' :: rest) from by
                      simp [escStr, escChar, h1, h2, h3, h4, h5],
                parseStrBody.eq_def]
              simp [h1, h2, ih]

theorem hasKey_append (k : String) (o₁ o₂ : List (String × JVal)) :
    hasKey k (o₁ ++ o₂) = (hasKey k o₁ || hasKey k o₂) := by
  induction o₁ with
  | nil => simp [hasKey, objGet]
  | cons kv rest ih =>
    obtain ⟨k', v⟩ := kv
    by_cases hk : k' = k
    · simp [hasKey, objGet, hk]
    · simpa [hasKey, objGet, hk] using ih

theorem hasKey_eq_false_iff (k : String) (o : List (String × JVal)) :
    hasKey k o = false ↔ ∀ kv ∈ o, kv.1 ≠ k := by
  induction o with
  | nil => simp [hasKey, objGet]
  | cons kv rest ih =>
    obtain ⟨k', v⟩ := kv
    by_cases hk : k' = k
    · simp [hasKey, objGet, hk]
    · simpa [hasKey, objGet, hk] using ih

theorem dictUpdate_append (l : List (String × JVal)) :
    ∀ acc : List (String × JVal),
      (∀ kv ∈ l, hasKey kv.1 acc = false) → keysNodup l = true →
      dictUpdate acc l = acc ++ l := by
  induction l with
  | nil => intro acc _ _; simp [dictUpdate]
  | cons kv rest ih =>
    intro acc hfresh hnd
    obtain ⟨k, v⟩ := kv
    simp only [keysNodup, Bool.and_eq_true, Bool.not_eq_true'] at hnd
    have hk : hasKey k acc = false := hfresh (k, v) (List.mem_cons_self _ _)
    have step : dictUpdate acc ((k, v) :: rest) = dictUpdate (acc ++ [(k, v)]) rest := by
      simp [dictUpdate, dictInsert, hk]
    rw [step, ih (acc ++ [(k, v)]) ?_ hnd.2]
    · simp
    · intro kv' hkv'
      rw [hasKey_append]
      have h1 : hasKey kv'.1 acc = false := hfresh kv' (List.mem_cons_of_mem _ hkv')
      have h2 : kv'.1 ≠ k := (hasKey_eq_false_iff k rest).mp hnd.1 kv' hkv'
      have h3 : hasKey kv'.1 [(k, v)] = false := by
        simp [hasKey, objGet]
        exact fun hh => absurd hh.symm h2
      rw [h1, h3]
      rfl

/-- Building a Python dict from pairs with distinct keys reproduces them. -/
theorem dictify_eq (l : List (String × JVal)) (h : keysNodup l = true) :
    dictify l = l := by
  have := dictUpdate_append l [] (by intro kv _; rfl) h
  simpa [dictify] using this

theorem mkdata (s : String) : String.mk s.data = s := rfl

theorem skipWs_nlind (d : Nat) (s : List Char) :
    skipWs ('\n' :: (ind d ++ s)) = skipWs s := by
  simpa using skipWs_ws_append ('\n' :: ind d) (nlind_ws d) s

theorem parseVal_nlind (d fuel : Nat) (s : List Char) :
    parseVal fuel ('\n' :: (ind d ++ s)) = parseVal fuel s := by
  match fuel with
  | 0 => rfl
  | f + 1 =>
    conv_lhs => rw [parseVal.eq_def]
    conv_rhs => rw [parseVal.eq_def]
    simp only [skipWs_nlind d s]

theorem parseVal_space (fuel : Nat) (s : List Char) :
    parseVal fuel (' ' :: s) = parseVal fuel s := by
  match fuel with
  | 0 => rfl
  | f + 1 =>
    conv_lhs => rw [parseVal.eq_def]
    conv_rhs => rw [parseVal.eq_def]
    have : skipWs (' ' :: s) = skipWs s := by simp [skipWs, isWsC]
    simp only [this]

theorem parseMember_nlind (d fuel : Nat) (s : List Char) :
    parseMember fuel ('\n' :: (ind d ++ s)) = parseMember fuel s := by
  match fuel with
  | 0 => rfl
  | f + 1 =>
    conv_lhs => rw [parseMember.eq_def]
    conv_rhs => rw [parseMember.eq_def]
    simp only [skipWs_nlind d s]

/-- A serialized object member starts with the key's opening quote. -/
theorem dumpPair_cons (d : Nat) (kv : String × JVal) :
    ∃ t, dumpPair d kv = '"' :: t := by
  obtain ⟨k, v⟩ := kv
  exact ⟨_, rfl⟩

mutual

/-- The value inversion: parsing a serialized value consumes exactly it. -/
theorem rt_val : ∀ (v : JVal) (d fuel : Nat) (rest : List Char),
    v.wf = true → jsize v ≤ fuel →
    parseVal fuel (dumpVal d v ++ rest) = some (v, rest)
  | .str s, d, fuel, rest, _, hsz => by
    simp only [jsize] at hsz
    match fuel, hsz with
    | f + 1, _ =>
      have harg : dumpVal d (.str s) ++ rest = '"' :: (escStr s.data ++ '"' :: rest) := by
        simp [dumpVal, dumpStr]
      rw [harg]
      conv_lhs => rw [parseVal.eq_def]
      simp [skipWs_not_ws (by decide : isWsC '"' = false), parseStrBody_inv, mkdata]
  | .arr [], d, fuel, rest, _, hsz => by
    simp only [jsize, jsizeL] at hsz
    match fuel, hsz with
    | f + 1, _ =>
      have harg : dumpVal d (.arr []) ++ rest = '[' :: ']' :: rest := by
        simp [dumpVal]
      rw [harg]
      conv_lhs => rw [parseVal.eq_def]
      simp [skipWs_not_ws (by decide : isWsC '[' = false),
        skipWs_not_ws (by decide : isWsC ']' = false)]
  | .arr (v :: vs), d, fuel, rest, hwf, hsz => by
    simp only [JVal.wf, wfList, Bool.and_eq_true] at hwf
    simp only [jsize, jsizeL] at hsz
    cases fuel with
    | zero => omega
    | succ f =>
      have harg : dumpVal d (.arr (v :: vs)) ++ rest
          = '[' :: ('\n' :: (ind (d + 1)
              ++ (dumpVal (d + 1) v
                ++ (dumpArrTail d vs ++ '\n' :: (ind d ++ ']' :: rest))))) := by
        simp [dumpVal, List.append_assoc]
      rw [harg]
      conv_lhs => rw [parseVal.eq_def]
      obtain ⟨c2, t2, hhead, hws2, hbr2, _⟩ := dumpVal_cons (d + 1) v
      have hskip : skipWs ('\n' :: (ind (d + 1)
          ++ (dumpVal (d + 1) v
            ++ (dumpArrTail d vs ++ '\n' :: (ind d ++ ']' :: rest)))))
          = c2 :: (t2 ++ (dumpArrTail d vs ++ '\n' :: (ind d ++ ']' :: rest))) := by
        rw [skipWs_nlind, hhead, List.cons_append, skipWs_not_ws hws2]
      have hv : parseVal f ('\n' :: (ind (d + 1)
          ++ (dumpVal (d + 1) v
            ++ (dumpArrTail d vs ++ '\n' :: (ind d ++ ']' :: rest)))))
          = some (v, dumpArrTail d vs ++ '\n' :: (ind d ++ ']' :: rest)) := by
        rw [parseVal_nlind]
        exact rt_val v (d + 1) f _ hwf.1 (by omega)
      have ht : parseArrTail f (dumpArrTail d vs ++ '\n' :: (ind d ++ ']' :: rest))
          = some (vs, rest) := rt_arrTail vs d d f rest hwf.2 (by omega)
      simp [skipWs_not_ws (by decide : isWsC '[' = false), hskip, hbr2, hv, ht]
  | .obj [], d, fuel, rest, _, hsz => by
    simp only [jsize, jsizeP] at hsz
    match fuel, hsz with
    | f + 1, _ =>
      have harg : dumpVal d (.obj []) ++ rest = lbrace :: rbrace :: rest := by
        simp [dumpVal]
      rw [harg]
      conv_lhs => rw [parseVal.eq_def]
      simp [skipWs_not_ws (by decide : isWsC lbrace = false),
        skipWs_not_ws (by decide : isWsC rbrace = false),
        (by decide : ¬(lbrace = '"')), (by decide : ¬(lbrace = '['))]
  | .obj (kv :: kvs), d, fuel, rest, hwf, hsz => by
    have hwf' : keysNodup (kv :: kvs) = true ∧ kv.2.wf = true ∧ wfPairs kvs = true := by
      simp only [JVal.wf, Bool.and_eq_true] at hwf
      exact ⟨hwf.1, by simpa [wfPairs, Bool.and_eq_true] using hwf.2⟩
    simp only [jsize, jsizeP] at hsz
    cases fuel with
    | zero => omega
    | succ f =>
      have harg : dumpVal d (.obj (kv :: kvs)) ++ rest
          = lbrace :: ('\n' :: (ind (d + 1)
              ++ (dumpPair (d + 1) kv
                ++ (dumpObjTail d kvs ++ '\n' :: (ind d ++ rbrace :: rest))))) := by
        simp [dumpVal, List.append_assoc]
      rw [harg]
      conv_lhs => rw [parseVal.eq_def]
      obtain ⟨t2, hhead⟩ := dumpPair_cons (d + 1) kv
      have hskip : skipWs ('\n' :: (ind (d + 1)
          ++ (dumpPair (d + 1) kv
            ++ (dumpObjTail d kvs ++ '\n' :: (ind d ++ rbrace :: rest)))))
          = '"' :: (t2 ++ (dumpObjTail d kvs ++ '\n' :: (ind d ++ rbrace :: rest))) := by
        rw [skipWs_nlind, hhead, List.cons_append,
          skipWs_not_ws (by decide : isWsC '"' = false)]
      have hm : parseMember f ('\n' :: (ind (d + 1)
          ++ (dumpPair (d + 1) kv
            ++ (dumpObjTail d kvs ++ '\n' :: (ind d ++ rbrace :: rest)))))
          = some (kv, dumpObjTail d kvs ++ '\n' :: (ind d ++ rbrace :: rest)) := by
        rw [parseMember_nlind]
        exact rt_member kv (d + 1) f _ hwf'.2.1 (by omega)
      have ht : parseObjTail f (dumpObjTail d kvs ++ '\n' :: (ind d ++ rbrace :: rest))
          = some (kvs, rest) := rt_objTail kvs d d f rest hwf'.2.2 (by omega)
      have hdict : dictify (kv :: kvs) = kv :: kvs := dictify_eq _ hwf'.1
      simp [skipWs_not_ws (by decide : isWsC lbrace = false),
        (by decide : ¬(lbrace = '"')), (by decide : ¬(lbrace = '[')), hskip,
        (by decide : ¬('"' = rbrace)), hm, ht, hdict]

/-- The array-tail inversion: after an element, the parser consumes the
remaining serialized elements up to and including the closing `]`. -/
theorem rt_arrTail : ∀ (vs : List JVal) (d d' fuel : Nat) (rest : List Char),
    wfList vs = true → jsizeL vs + 1 ≤ fuel →
    parseArrTail fuel (dumpArrTail d vs ++ '\n' :: (ind d' ++ ']' :: rest))
      = some (vs, rest)
  | [], d, d', fuel, rest, _, hsz => by
    simp only [jsizeL] at hsz
    match fuel, hsz with
    | f + 1, _ =>
      conv_lhs => rw [parseArrTail.eq_def]
      simp [dumpArrTail, skipWs_nlind, skipWs_not_ws (by decide : isWsC ']' = false)]
  | w :: ws, d, d', fuel, rest, hwf, hsz => by
    simp only [wfList, Bool.and_eq_true] at hwf
    simp only [jsizeL] at hsz
    match fuel, hsz with
    | f + 1, _ =>
      have harg : dumpArrTail d (w :: ws) ++ '\n' :: (ind d' ++ ']' :: rest)
          = ',' :: ('\n' :: (ind (d + 1)
              ++ (dumpVal (d + 1) w
                ++ (dumpArrTail d ws ++ '\n' :: (ind d' ++ ']' :: rest))))) := by
        simp [dumpArrTail, List.append_assoc]
      rw [harg]
      conv_lhs => rw [parseArrTail.eq_def]
      have hv : parseVal f ('\n' :: (ind (d + 1)
          ++ (dumpVal (d + 1) w
            ++ (dumpArrTail d ws ++ '\n' :: (ind d' ++ ']' :: rest)))))
          = some (w, dumpArrTail d ws ++ '\n' :: (ind d' ++ ']' :: rest)) := by
        rw [parseVal_nlind]
        exact rt_val w (d + 1) f _ hwf.1 (by omega)
      have ht : parseArrTail f (dumpArrTail d ws ++ '\n' :: (ind d' ++ ']' :: rest))
          = some (ws, rest) := rt_arrTail ws d d' f rest hwf.2 (by omega)
      simp [skipWs_not_ws (by decide : isWsC ',' = false),
        (by decide : ¬(',' = ']')), hv, ht]

/-- The member inversion: parsing a serialized `"key": value` recovers it. -/
theorem rt_member : ∀ (kv : String × JVal) (d fuel : Nat) (rest : List Char),
    kv.2.wf = true → jsize kv.2 + 1 ≤ fuel →
    parseMember fuel (dumpPair d kv ++ rest) = some (kv, rest)
  | (k, v), d, fuel, rest, hwf, hsz => by
    have hsz2 : jsize v + 1 ≤ fuel := hsz
    cases fuel with
    | zero => omega
    | succ f =>
      have harg : dumpPair d (k, v) ++ rest
          = '"' :: (escStr k.data ++ '"' :: ':' :: ' ' :: (dumpVal d v ++ rest)) := by
        simp [dumpPair, dumpStr, List.append_assoc]
      rw [harg]
      conv_lhs => rw [parseMember.eq_def]
      have hv : parseVal f (' ' :: (dumpVal d v ++ rest)) = some (v, rest) := by
        rw [parseVal_space]
        exact rt_val v d f rest hwf (by omega)

      simp [skipWs_not_ws (by decide : isWsC '"' = false), parseStrBody_inv,
        skipWs_not_ws (by decide : isWsC ':' = false), hv, mkdata]

/-- The object-tail inversion: after a member, the parser consumes the
remaining serialized members up to and including the closing brace. -/
theorem rt_objTail : ∀ (kvs : List (String × JVal)) (d d' fuel : Nat) (rest : List Char),
    wfPairs kvs = true → jsizeP kvs + 1 ≤ fuel →
    parseObjTail fuel (dumpObjTail d kvs ++ '\n' :: (ind d' ++ rbrace :: rest))
      = some (kvs, rest)
  | [], d, d', fuel, rest, _, hsz => by
    simp only [jsizeP] at hsz
    match fuel, hsz with
    | f + 1, _ =>
      conv_lhs => rw [parseObjTail.eq_def]
      simp [dumpObjTail, skipWs_nlind, skipWs_not_ws (by decide : isWsC rbrace = false)]
  | kv :: kvs, d, d', fuel, rest, hwf, hsz => by
    simp only [wfPairs, Bool.and_eq_true] at hwf
    simp only [jsizeP] at hsz
    match fuel, hsz with
    | f + 1, _ =>
      have harg : dumpObjTail d (kv :: kvs) ++ '\n' :: (ind d' ++ rbrace :: rest)
          = ',' :: ('\n' :: (ind (d + 1)
              ++ (dumpPair (d + 1) kv
                ++ (dumpObjTail d kvs ++ '\n' :: (ind d' ++ rbrace :: rest))))) := by
        simp [dumpObjTail, List.append_assoc]
      rw [harg]
      conv_lhs => rw [parseObjTail.eq_def]
      have hm : parseMember f ('\n' :: (ind (d + 1)
          ++ (dumpPair (d + 1) kv
            ++ (dumpObjTail d kvs ++ '\n' :: (ind d' ++ rbrace :: rest)))))
          = some (kv, dumpObjTail d kvs ++ '\n' :: (ind d' ++ rbrace :: rest)) := by
        rw [parseMember_nlind]
        exact rt_member kv (d + 1) f _ hwf.1 (by omega)
      have ht : parseObjTail f (dumpObjTail d kvs ++ '\n' :: (ind d' ++ rbrace :: rest))
          = some (kvs, rest) := rt_objTail kvs d d' f rest hwf.2 (by omega)
      simp [skipWs_not_ws (by decide : isWsC ',' = false),
        (by decide : ¬(',' = rbrace)), hm, ht]

end

mutual

/-- The serialized text is at least as long as the production count. -/
theorem jsize_le_dump : ∀ (v : JVal) (d : Nat), jsize v ≤ (dumpVal d v).length
  | .str s, d => by
    simp only [jsize, dumpVal, dumpStr, List.length_cons, List.length_append]
    omega
  | .arr [], d => by
    simp [jsize, jsizeL, dumpVal]
  | .arr (v :: vs), d => by
    have h1 := jsize_le_dump v (d + 1)
    have h2 := jsizeL_le_dumpTail vs d
    simp only [jsize, jsizeL, dumpVal, List.length_cons, List.length_append]
    omega
  | .obj [], d => by
    simp [jsize, jsizeP, dumpVal]
  | .obj (kv :: kvs), d => by
    have h1 := jsizeP_le_dumpPair kv (d + 1)
    have h2 := jsizeP_le_dumpTail kvs d
    simp only [jsize, jsizeP, dumpVal, List.length_cons, List.length_append]
    omega

theorem jsizeL_le_dumpTail : ∀ (vs : List JVal) (d : Nat),
    jsizeL vs ≤ (dumpArrTail d vs).length
  | [], d => by simp [jsizeL, dumpArrTail]
  | v :: vs, d => by
    have h1 := jsize_le_dump v (d + 1)
    have h2 := jsizeL_le_dumpTail vs d
    simp only [jsizeL, dumpArrTail, List.length_cons, List.length_append]
    omega

theorem jsizeP_le_dumpPair : ∀ (kv : String × JVal) (d : Nat),
    jsize kv.2 + 1 ≤ (dumpPair d kv).length
  | (k, v), d => by
    have h1 := jsize_le_dump v d
    simp only [dumpPair, dumpStr, List.length_cons, List.length_append]
    omega

theorem jsizeP_le_dumpTail : ∀ (kvs : List (String × JVal)) (d : Nat),
    jsizeP kvs ≤ (dumpObjTail d kvs).length
  | [], d => by simp [jsizeP, dumpObjTail]
  | kv :: kvs, d => by
    have h1 := jsizeP_le_dumpPair kv (d + 1)
    have h2 := jsizeP_le_dumpTail kvs d
    simp only [jsizeP, dumpObjTail, List.length_cons, List.length_append]
    omega

end

theorem parseVal_newline (fuel : Nat) (s : List Char) :
    parseVal fuel ('\n' :: s) = parseVal fuel s := by
  match fuel with
  | 0 => rfl
  | f + 1 =>
    conv_lhs => rw [parseVal.eq_def]
    conv_rhs => rw [parseVal.eq_def]
    have : skipWs ('\n' :: s) = skipWs s := by simp [skipWs, isWsC]
    simp only [this]

/-- `json.loads` undoes `json.dumps` on the extracted block text
(a newline on each side, as `save_roster` embeds it). -/
theorem loads_dumps (v : JVal) (hwf : v.wf = true) :
    loads ('\n' :: (dumps v ++ ['\n'])) = some v := by
  have hp : parseVal ((dumps v).length + 1 + 1 + 1)
      ('\n' :: (dumps v ++ ['\n'])) = some (v, ['\n']) := by
    rw [parseVal_newline]
    refine rt_val v 0 _ ['\n'] hwf ?_
    have := jsize_le_dump v 0
    simp only [dumps] at this ⊢
    omega
  simp [loads, hp, skipWs, isWsC]

/-! ## Extraction of the embedded block from a saved document -/

theorem noOcc_of_hasSubstr_false {sep s : List Char} (h : hasSubstr sep s = false) :
    ∀ i, ¬ sep <+: s.drop i := by
  intro i hp
  have := (hasSubstr_iff sep s).mpr ⟨i, hp⟩
  rw [h] at this
  exact Bool.noConfusion this

/-- If `sep` is newline-free and absent from `a ++ ['\n']`, then no occurrence
of `sep` in `(a ++ ['\n']) ++ z` starts before `z`. -/
theorem noOcc_newline_boundary (sep : List Char) (hn : '\n' ∉ sep)
    (a z : List Char) (hfree : hasSubstr sep (a ++ ['\n']) = false) :
    ∀ i, i < (a ++ ['\n']).length → ¬ sep <+: ((a ++ ['\n']) ++ z).drop i := by
  intro i hi hpre
  have hdrop : ((a ++ ['\n']) ++ z).drop i = (a ++ ['\n']).drop i ++ z :=
    List.drop_append_of_le_length (by omega)
  rw [hdrop] at hpre
  by_cases hl : sep.length ≤ ((a ++ ['\n']).drop i).length
  · have := hasSubstr_of_pref_drop i (pref_of_append_long hpre hl)
    rw [hfree] at this
    exact Bool.noConfusion this
  · have hxp : (a ++ ['\n']).drop i <+: sep := pref_of_append_short hpre (by omega)
    have hmem : '\n' ∈ (a ++ ['\n']).drop i := by
      have hia : i ≤ a.length := by
        simp only [List.length_append, List.length_cons, List.length_nil] at hi
        omega
      rw [List.drop_append_of_le_length hia]
      exact List.mem_append_right _ (List.mem_singleton.mpr rfl)
    exact hn (hxp.subset hmem)

/-- The saved document does contain the marker (so `parse_roster` takes the
extraction branch). -/
theorem marker_in_saved (a b : List Char) :
    hasSubstr MARKER (a ++ (MARKER ++ b)) = true :=
  hasSubstr_append_right _ a _ (hasSubstr_of_pref (List.prefix_append _ _))

/-- No occurrence of the newline-free `sep` in `'\n' :: (mid ++ '\n' :: tail)`
when `sep` occurs in neither `mid` nor `tail`. -/
theorem block_free (sep : List Char) (hn : '\n' ∉ sep) (hne : sep ≠ [])
    (mid tail0 : List Char) (hmid : hasSubstr sep mid = false)
    (htail : hasSubstr sep tail0 = false) :
    hasSubstr sep ('\n' :: (mid ++ '\n' :: tail0)) = false := by
  match sep, hne with
  | c0 :: sep', _ =>
    have hc0 : ¬ (c0 = '\n') := fun h => hn (h ▸ List.mem_cons_self _ _)
    simp only [hasSubstr, Bool.or_eq_false_iff]
    constructor
    · cases hpre : (c0 :: sep').isPrefixOf ('\n' :: (mid ++ '\n' :: tail0)) with
      | false => rfl
      | true =>
        exfalso
        obtain ⟨h1, -⟩ := List.cons_prefix_cons.mp (List.isPrefixOf_iff_prefix.mp hpre)
        exact hc0 h1
    · cases hcase : hasSubstr (c0 :: sep') (mid ++ '\n' :: tail0) with
      | false => rfl
      | true =>
        exfalso
        rcases hasSubstr_append_cons _ '\n' hn mid tail0 hcase with h | h
        · rw [hmid] at h
          exact Bool.noConfusion h
        · rw [htail] at h
          exact Bool.noConfusion h

/-- The two `str.split` steps of `parse_roster` recover exactly the embedded
text between the marker and the end token, provided the marker occurs neither
in the rendered prose nor in the serialized data and the end token does not
occur in the serialized data. -/
theorem extract_block (prose json : List Char)
    (h1 : hasSubstr MARKER (prose ++ ['\n']) = false)
    (h2 : hasSubstr MARKER json = false)
    (h3 : hasSubstr ENDTOK json = false) :
    extractBlock ((prose ++ ['\n']) ++ (MARKER ++ ('\n' :: (json ++ '\n' :: ENDTOK))))
      = '\n' :: (json ++ ['\n']) := by
  have hS1 : pySplitStr MARKER
      ((prose ++ ['\n']) ++ (MARKER ++ ('\n' :: (json ++ '\n' :: ENDTOK))))
      = (prose ++ ['\n']) :: pySplit MARKER ('\n' :: (json ++ '\n' :: ENDTOK)).length
          ('\n' :: (json ++ '\n' :: ENDTOK)) :=
    pySplit_splitAt MARKER (by decide) _ _ _ le_rfl
      (noOcc_newline_boundary MARKER (by decide) prose _ h1)
  have hfree_b : hasSubstr MARKER ('\n' :: (json ++ '\n' :: ENDTOK)) = false :=
    block_free MARKER (by decide) (by decide) json ENDTOK h2 (by decide)
  have hS2 : pySplit MARKER ('\n' :: (json ++ '\n' :: ENDTOK)).length
      ('\n' :: (json ++ '\n' :: ENDTOK)) = ['\n' :: (json ++ '\n' :: ENDTOK)] :=
    pySplit_noOcc MARKER _ _ le_rfl (noOcc_of_hasSubstr_false hfree_b)
  have hfree_a : hasSubstr ENDTOK (('\n' :: json) ++ ['\n']) = false := by
    have heq : ('\n' :: json) ++ ['\n'] = '\n' :: (json ++ '\n' :: ([] : List Char)) := by
      simp
    rw [heq]
    exact block_free ENDTOK (by decide) (by decide) json [] h3 (by decide)
  have hS3 : pySplitStr ENDTOK ((('\n' :: json) ++ ['\n']) ++ (ENDTOK ++ []))
      = (('\n' :: json) ++ ['\n']) :: pySplit ENDTOK ([] : List Char).length [] :=
    pySplit_splitAt ENDTOK (by decide) _ _ _ le_rfl
      (noOcc_newline_boundary ENDTOK (by decide) ('\n' :: json) _ hfree_a)
  have hE0 : '\n' :: (json ++ '\n' :: ENDTOK)
      = (('\n' :: json) ++ ['\n']) ++ (ENDTOK ++ []) := by simp
  simp only [extractBlock, hS1, hS2]
  have hget : ((prose ++ ['\n']) :: ['\n' :: (json ++ '\n' :: ENDTOK)]).getD 1 []
      = '\n' :: (json ++ '\n' :: ENDTOK) := rfl
  rw [hget, hE0, hS3, pySplit_nil]
  simp

/-- The codec round-trip, under the conditions the extraction step needs. -/
theorem decode_encode (data : JVal) (prose : List Char)
    (hpr : renderProse data = some prose) (hwf : data.wf = true)
    (h1 : hasSubstr MARKER (prose ++ ['\n']) = false)
    (h2 : hasSubstr MARKER (dumps data) = false)
    (h3 : hasSubstr ENDTOK (dumps data) = false) :
    roundTrip data = some data := by
  have hsave : save_roster data = some (prose ++ jsonBlock data) := by
    simp [save_roster, hpr]
  have hcontent : prose ++ jsonBlock data
      = (prose ++ ['\n']) ++ (MARKER ++ ('\n' :: (dumps data ++ '\n' :: ENDTOK))) := by
    simp [jsonBlock]
  have hmark : hasSubstr MARKER (prose ++ jsonBlock data) = true := by
    rw [hcontent]
    exact marker_in_saved _ _
  have hext := extract_block prose (dumps data) h1 h2 h3
  have hparse : parse_roster (some (prose ++ jsonBlock data)) = .ok data := by
    simp only [parse_roster, hmark, if_true]
    rw [hcontent, hext, loads_dumps data hwf]
  simp [roundTrip, hsave, hparse]

/-! ## Claim C1: the round-trip contract -/

/-- C1, counterexample: the claim "decode(encode(R)) = R for any Roster whose
field values are representable in the structured-data format" fails as stated.
The roster whose meta `mandate` is the string `-->` is representable
(a documented meta field holding a string), yet decoding the document written
for it does not return it: the end token inside the serialized string value
truncates the extracted block, so the decode fails. -/
theorem c1_counterexample :
    roundTrip (.obj [("meta", .obj [("mandate", .str "-->")])])
      ≠ some (.obj [("meta", .obj [("mandate", .str "-->")])]) := by
  have h : roundTrip (.obj [("meta", .obj [("mandate", .str "-->")])]) = none := by
    decide
  rw [h]
  exact fun hh => Option.noConfusion hh

/-- C1, amended: decoding the document written by `save_roster(R)` returns `R`
exactly, for every Roster `R` that the renderer accepts (well-formed objects
with distinct keys), provided the marker token occurs neither in the rendered
prose nor in the serialized data and the end token `-->` does not occur in the
serialized data — the condition the counterexample shows is necessary. -/
theorem c1_roundtrip (data : JVal) (prose : List Char)
    (hpr : renderProse data = some prose) (hwf : data.wf = true)
    (h1 : hasSubstr MARKER (prose ++ ['\n']) = false)
    (h2 : hasSubstr MARKER (dumps data) = false)
    (h3 : hasSubstr ENDTOK (dumps data) = false) :
    roundTrip data = some data :=
  decode_encode data prose hpr hwf h1 h2 h3

theorem c1_roundtrip_witness :
    roundTrip (.obj [("meta", .obj [("name", .str "M")]),
        ("personas", .arr [.obj [("name", .str "A")]])])
      = some (.obj [("meta", .obj [("name", .str "M")]),
        ("personas", .arr [.obj [("name", .str "A")]])]) :=
  c1_roundtrip _
    ((renderProse (.obj [("meta", .obj [("name", .str "M")]),
        ("personas", .arr [.obj [("name", .str "A")]])])).getD [])
    (by decide) (by decide) (by decide) (by decide) (by decide)

/-! ## Python dict semantics lemmas -/

theorem objGet_none_of_hasKey_false {k : String} {o : List (String × JVal)}
    (h : hasKey k o = false) : objGet k o = none := by
  cases hg : objGet k o with
  | none => rfl
  | some v =>
    exfalso
    simp only [hasKey, hg, Option.isSome_some] at h
    exact Bool.noConfusion h

/-- Lookup in `setKey k0 v0 o`. -/
theorem objGet_setKey (k0 : String) (v0 : JVal) :
    ∀ (o : List (String × JVal)) (k : String),
      objGet k (setKey k0 v0 o)
        = if k0 = k then (if hasKey k0 o then some v0 else none) else objGet k o := by
  intro o
  induction o with
  | nil => intro k; simp [setKey, objGet, hasKey]
  | cons kv rest ih =>
    intro k
    obtain ⟨k1, v1⟩ := kv
    by_cases h1 : k1 = k0
    · subst h1
      by_cases h2 : k1 = k
      · subst h2
        simp [setKey, objGet, ih, hasKey]
      · simp [setKey, objGet, ih, hasKey, h2]
    · simp only [setKey, if_neg h1, objGet, ih k]
      by_cases h2 : k1 = k
      · subst h2
        have h3 : ¬ (k0 = k1) := fun hh => h1 hh.symm
        simp [h3]
      · simp only [if_neg h2]
        by_cases h3 : k0 = k
        · subst h3
          have : hasKey k0 ((k1, v1) :: rest) = hasKey k0 rest := by
            simp [hasKey, objGet, h1]
          rw [this]
        · simp [h3]

/-- Lookup after a single Python `d[k0] = v0`. -/
theorem objGet_dictInsert (k0 : String) (v0 : JVal)
    (o : List (String × JVal)) (k : String) :
    objGet k (dictInsert o k0 v0) = if k0 = k then some v0 else objGet k o := by
  by_cases hk : hasKey k0 o
  · simp only [dictInsert, if_pos hk, objGet_setKey, hk, if_true]
  · simp only [Bool.not_eq_true] at hk
    simp only [dictInsert, hk, Bool.false_eq_true, if_false]
    induction o with
    | nil => simp [objGet]
    | cons kv rest ih =>
      obtain ⟨k1, v1⟩ := kv
      by_cases h2 : k1 = k
      · subst h2
        have h3 : ¬ (k0 = k1) := by
          intro hh
          subst hh
          simp [hasKey, objGet] at hk
        simp [objGet, h3]
      · simp only [List.cons_append, objGet, if_neg h2]
        exact ih (by
          simp only [hasKey, objGet] at hk ⊢
          by_cases h3 : k1 = k0
          · subst h3
            simp at hk
          · simpa [h3] using hk)

/-- Lookup after Python `d.update(patch)` for a duplicate-free `patch`: keys of
the patch read back their patched value, all other keys are untouched. -/
theorem objGet_dictUpdate (patch : List (String × JVal)) :
    ∀ (po : List (String × JVal)), keysNodup patch = true → ∀ k,
      objGet k (dictUpdate po patch)
        = match objGet k patch with
          | some v => some v
          | none => objGet k po := by
  induction patch with
  | nil => intro po _ k; simp [dictUpdate, objGet]
  | cons kv rest ih =>
    intro po hnd k
    obtain ⟨k0, v0⟩ := kv
    simp only [keysNodup, Bool.and_eq_true, Bool.not_eq_true'] at hnd
    have step : dictUpdate po ((k0, v0) :: rest) = dictUpdate (dictInsert po k0 v0) rest := by
      simp [dictUpdate]
    rw [step, ih (dictInsert po k0 v0) hnd.2 k]
    by_cases h0 : k0 = k
    · subst h0
      have hrest : objGet k0 rest = none := objGet_none_of_hasKey_false hnd.1
      simp [objGet, hrest, objGet_dictInsert]
    · simp only [objGet, if_neg h0]
      cases hq : objGet k rest with
      | some v => rfl
      | none => simp [objGet_dictInsert, h0]

theorem setKey_id {k : String} (v : JVal) :
    ∀ o : List (String × JVal), (∀ kv ∈ o, kv.1 ≠ k) → setKey k v o = o := by
  intro o
  induction o with
  | nil => intro _; rfl
  | cons kv rest ih =>
    intro h
    obtain ⟨k1, v1⟩ := kv
    have h1 : k1 ≠ k := h (k1, v1) (List.mem_cons_self _ _)
    simp only [setKey, if_neg h1, List.cons.injEq, true_and]
    exact ih (fun x hx => h x (List.mem_cons_of_mem _ hx))

/-- Re-inserting the value a key already holds leaves a duplicate-free dict
unchanged. -/
theorem dictInsert_self : ∀ (d : List (String × JVal)) (k : String) (v : JVal),
    keysNodup d = true → objGet k d = some v → dictInsert d k v = d := by
  intro d
  induction d with
  | nil => intro k v _ hget; simp [objGet] at hget
  | cons kv rest ih =>
    intro k v hnd hget
    obtain ⟨k0, v0⟩ := kv
    simp only [keysNodup, Bool.and_eq_true, Bool.not_eq_true'] at hnd
    have hk : hasKey k ((k0, v0) :: rest) = true := by
      simp [hasKey, hget]
    by_cases h0 : k0 = k
    · subst h0
      have hv : v = v0 := by
        simp [objGet] at hget
        exact hget.symm
      subst hv
      simp only [dictInsert, if_pos hk, setKey]
      rw [setKey_id v rest ((hasKey_eq_false_iff k0 rest).mp hnd.1)]
      simp
    · have hget2 : objGet k rest = some v := by
        simpa [objGet, h0] using hget
      have hrec := ih k v hnd.2 hget2
      have hkrest : hasKey k rest = true := by simp [hasKey, hget2]
      unfold dictInsert at hrec ⊢
      rw [if_pos hkrest] at hrec
      rw [if_pos hk]
      simp only [setKey, if_neg h0, List.cons.injEq, true_and]
      exact hrec

/-! ## The update loops -/

theorem updateLoop_noMatch (name : String) (patch : JVal) :
    ∀ ps : List JVal, (∀ p ∈ ps, missName name p) →
      updateLoop name patch ps = .ok ps := by
  intro ps
  induction ps with
  | nil => intro _; rfl
  | cons p rest ih =>
    intro h
    obtain ⟨po, v, rfl, hget, hne⟩ := h p (List.mem_cons_self _ _)
    simp [updateLoop, hget, hne, ih (fun q hq => h q (List.mem_cons_of_mem _ hq))]

theorem updateLoop_found (name : String) (patch : JVal) (patchO : List (String × JVal))
    (hpatch : asObj patch = some patchO) (po : List (String × JVal)) (v : JVal)
    (hget : objGet "name" po = some v) (hv : jvalEqStr v name = true) :
    ∀ pre : List JVal, (∀ p ∈ pre, missName name p) → ∀ post,
      updateLoop name patch (pre ++ JVal.obj po :: post)
        = .ok (pre ++ JVal.obj (dictUpdate po patchO) :: post) := by
  intro pre
  induction pre with
  | nil =>
    intro _ post
    simp [updateLoop, hget, hv, hpatch]
  | cons p rest ih =>
    intro h post
    obtain ⟨po', v', rfl, hget', hne'⟩ := h p (List.mem_cons_self _ _)
    simp [updateLoop, hget', hne',
      ih (fun q hq => h q (List.mem_cons_of_mem _ hq)) post]

theorem updateLoop_keyError (name : String) (patch : JVal)
    (bad : List (String × JVal)) (hbad : objGet "name" bad = none) :
    ∀ pre : List JVal, (∀ p ∈ pre, missName name p) → ∀ rest,
      updateLoop name patch (pre ++ JVal.obj bad :: rest) = .error .keyError := by
  intro pre
  induction pre with
  | nil => intro _ rest; simp [updateLoop, hbad]
  | cons p pre' ih =>
    intro h rest
    obtain ⟨po', v', rfl, hget', hne'⟩ := h p (List.mem_cons_self _ _)
    simp [updateLoop, hget', hne',
      ih (fun q hq => h q (List.mem_cons_of_mem _ hq)) rest]

theorem ledgerLoop_noMatch (name : String) (patch : JVal) :
    ∀ ps : List JVal, (∀ p ∈ ps, missName name p) →
      ledgerLoop name patch ps = .ok ps := by
  intro ps
  induction ps with
  | nil => intro _; rfl
  | cons p rest ih =>
    intro h
    obtain ⟨po, v, rfl, hget, hne⟩ := h p (List.mem_cons_self _ _)
    simp [ledgerLoop, hget, hne, ih (fun q hq => h q (List.mem_cons_of_mem _ hq))]

theorem ledgerLoop_found_absent (name : String) (patch : JVal)
    (patchO : List (String × JVal)) (hpatch : asObj patch = some patchO)
    (po : List (String × JVal)) (v : JVal)
    (hget : objGet "name" po = some v) (hv : jvalEqStr v name = true)
    (hled : objGet "ledger" po = none) :
    ∀ pre : List JVal, (∀ p ∈ pre, missName name p) → ∀ post,
      ledgerLoop name patch (pre ++ JVal.obj po :: post)
        = .ok (pre ++ JVal.obj (po ++ [("ledger", .obj (dictUpdate [] patchO))]) :: post) := by
  intro pre
  induction pre with
  | nil =>
    intro _ post
    simp [ledgerLoop, hget, hv, hpatch, hled]
  | cons p rest ih =>
    intro h post
    obtain ⟨po', v', rfl, hget', hne'⟩ := h p (List.mem_cons_self _ _)
    simp [ledgerLoop, hget', hne',
      ih (fun q hq => h q (List.mem_cons_of_mem _ hq)) post]

theorem ledgerLoop_found_present (name : String) (patch : JVal)
    (patchO : List (String × JVal)) (hpatch : asObj patch = some patchO)
    (po lo : List (String × JVal)) (v : JVal)
    (hget : objGet "name" po = some v) (hv : jvalEqStr v name = true)
    (hled : objGet "ledger" po = some (.obj lo)) :
    ∀ pre : List JVal, (∀ p ∈ pre, missName name p) → ∀ post,
      ledgerLoop name patch (pre ++ JVal.obj po :: post)
        = .ok (pre ++ JVal.obj (dictInsert po "ledger" (.obj (dictUpdate lo patchO))) :: post) := by
  intro pre
  induction pre with
  | nil =>
    intro _ post
    simp [ledgerLoop, hget, hv, hpatch, hled]
  | cons p rest ih =>
    intro h post
    obtain ⟨po', v', rfl, hget', hne'⟩ := h p (List.mem_cons_self _ _)
    simp [ledgerLoop, hget', hne',
      ih (fun q hq => h q (List.mem_cons_of_mem _ hq)) post]

theorem ledgerLoop_keyError (name : String) (patch : JVal)
    (bad : List (String × JVal)) (hbad : objGet "name" bad = none) :
    ∀ pre : List JVal, (∀ p ∈ pre, missName name p) → ∀ rest,
      ledgerLoop name patch (pre ++ JVal.obj bad :: rest) = .error .keyError := by
  intro pre
  induction pre with
  | nil => intro _ rest; simp [ledgerLoop, hbad]
  | cons p pre' ih =>
    intro h rest
    obtain ⟨po', v', rfl, hget', hne'⟩ := h p (List.mem_cons_self _ _)
    simp [ledgerLoop, hget', hne',
      ih (fun q hq => h q (List.mem_cons_of_mem _ hq)) rest]

/-! ## Locating rendered lines inside the document -/

theorem hasSubstr_cons_tail (sep : List Char) (c : Char) (t : List Char)
    (h : hasSubstr sep t = true) : hasSubstr sep (c :: t) = true := by
  simp [hasSubstr, h]

theorem hasSubstr_seg (sep rest : List Char) : hasSubstr sep (sep ++ rest) = true :=
  hasSubstr_of_pref (List.prefix_append _ _)

/-- A segment's occurrence lifts to any document having the enclosing block as
a middle part. -/
theorem hasSubstr_embed {sep B : List Char} (h : hasSubstr sep B = true)
    (a c pr : List Char) (hpr : pr = a ++ (B ++ c)) : hasSubstr sep pr = true := by
  subst hpr
  exact hasSubstr_append_right _ _ _ (hasSubstr_append_left _ _ _ h)

/-- Every persona of the list contributes its own numbered block as a middle
part of the rendered Active Personas section. -/
theorem personasBlocks_contains : ∀ (ps : List JVal) (i : Nat) (pBlk : List Char),
    personasBlocks i ps = some pBlk → ∀ p ∈ ps, ∀ po, p = JVal.obj po →
      ∃ j blk a c, personaBlock j po = some blk ∧ pBlk = a ++ (blk ++ c) := by
  intro ps
  induction ps with
  | nil =>
    intro i pBlk _ p hp
    exact absurd hp (List.not_mem_nil p)
  | cons q rest ih =>
    intro i pBlk h p hp po hpo
    simp only [personasBlocks] at h
    split at h
    · exact absurd h (by simp)
    · rename_i qo hq
      split at h
      · exact absurd h (by simp)
      · rename_i qblk hb
        split at h
        · exact absurd h (by simp)
        · rename_i restBlk hr
          simp only [Option.some.injEq] at h
          rcases List.mem_cons.mp hp with rfl | hmem
          · have hqo : qo = po := by
              rw [hpo] at hq
              exact (by simpa [asObj] using hq : po = qo).symm
            subst hqo
            exact ⟨i, qblk, [], restBlk, hb, by simp [h.symm]⟩
          · obtain ⟨j, blk, a, c, hblk, hdec⟩ := ih (i + 1) restBlk hr p hmem po hpo
            exact ⟨j, blk, qblk ++ a, c, hblk, by
              rw [← h, hdec]
              simp [List.append_assoc]⟩

/-- Every tension of the list contributes its block as a middle part of the
rendered Open Tensions section. -/
theorem tensionsBlocks_contains : ∀ (ts : List JVal) (tBlk : List Char),
    tensionsBlocks ts = some tBlk → ∀ t ∈ ts, ∀ to_, t = JVal.obj to_ →
      ∃ a c, tBlk = a ++ (tensionBlock to_ ++ c) := by
  intro ts
  induction ts with
  | nil =>
    intro tBlk _ t ht
    exact absurd ht (List.not_mem_nil t)
  | cons q rest ih =>
    intro tBlk h t ht to_ hto
    simp only [tensionsBlocks] at h
    split at h
    · exact absurd h (by simp)
    · rename_i qo hq
      split at h
      · exact absurd h (by simp)
      · rename_i restBlk hr
        simp only [Option.some.injEq] at h
        rcases List.mem_cons.mp ht with rfl | hmem
        · have hqo : qo = to_ := by
            rw [hto] at hq
            exact (by simpa [asObj] using hq : to_ = qo).symm
          subst hqo
          exact ⟨[], restBlk, by simp [h.symm]⟩
        · obtain ⟨a, c, hdec⟩ := ih restBlk hr t hmem to_ hto
          exact ⟨tensionBlock qo ++ a, c, by
            rw [← h, hdec]
            simp [List.append_assoc]⟩

theorem hasSubstr_self (sep : List Char) : hasSubstr sep sep = true :=
  hasSubstr_of_pref (List.prefix_refl _)

/-- All four labeled lines of the Meta Persona section occur in it, the `name`
value defaulting to `Roster Steward` and the other three to the empty
string. -/
theorem metaBlock_lines (meta : List (String × JVal)) :
    hasSubstr ("- **Name:** ".data
        ++ (pyStrV (objGetD meta "name" (.str "Roster Steward")) ++ ['\n']))
      (metaBlock meta) = true
    ∧ hasSubstr ("- **Mandate:** ".data
        ++ (pyStrV (objGetD meta "mandate" (.str "")) ++ ['\n'])) (metaBlock meta) = true
    ∧ hasSubstr ("- **Rotation Rules:** ".data
        ++ (pyStrV (objGetD meta "rotation_rules" (.str "")) ++ ['\n']))
      (metaBlock meta) = true
    ∧ hasSubstr ("- **Checks:** ".data
        ++ (pyStrV (objGetD meta "checks" (.str "")) ++ ['\n', '\n']))
      (metaBlock meta) = true := by
  refine ⟨?_, ?_, ?_, ?_⟩
  · exact hasSubstr_append_right _ _ _ (hasSubstr_seg _ _)
  · exact hasSubstr_append_right _ _ _ (hasSubstr_append_right _ _ _ (hasSubstr_seg _ _))
  · exact hasSubstr_append_right _ _ _ (hasSubstr_append_right _ _ _
      (hasSubstr_append_right _ _ _ (hasSubstr_seg _ _)))
  · exact hasSubstr_append_right _ _ _ (hasSubstr_append_right _ _ _
      (hasSubstr_append_right _ _ _ (hasSubstr_append_right _ _ _ (hasSubstr_self _))))

/-- All four labeled lines of a Ledger sub-block occur in it, every value
defaulting to the empty string. -/
theorem ledgerBlock_lines (lo : List (String × JVal)) :
    hasSubstr ("  - **Current stance:** ".data
        ++ (pyStrV (objGetD lo "current_stance" (.str "")) ++ ['\n']))
      (ledgerBlock lo) = true
    ∧ hasSubstr ("  - **Warnings:** ".data
        ++ (pyStrV (objGetD lo "warnings" (.str "")) ++ ['\n'])) (ledgerBlock lo) = true
    ∧ hasSubstr ("  - **Open questions:** ".data
        ++ (pyStrV (objGetD lo "open_questions" (.str "")) ++ ['\n']))
      (ledgerBlock lo) = true
    ∧ hasSubstr ("  - **Last updated:** ".data
        ++ (pyStrV (objGetD lo "last_updated" (.str "")) ++ ['\n', '\n']))
      (ledgerBlock lo) = true := by
  refine ⟨?_, ?_, ?_, ?_⟩
  · exact hasSubstr_append_right _ _ _ (hasSubstr_seg _ _)
  · exact hasSubstr_append_right _ _ _ (hasSubstr_append_right _ _ _ (hasSubstr_seg _ _))
  · exact hasSubstr_append_right _ _ _ (hasSubstr_append_right _ _ _
      (hasSubstr_append_right _ _ _ (hasSubstr_seg _ _)))
  · exact hasSubstr_append_right _ _ _ (hasSubstr_append_right _ _ _
      (hasSubstr_append_right _ _ _ (hasSubstr_append_right _ _ _ (hasSubstr_self _))))

/-- Every labeled line of a persona's numbered subsection occurs in it: the
heading renders `p.get('name')` (`None` when missing), the Role/Mandate/Trust
Model/Blind Spots lines default to the empty string, the two list headers
always appear, and the Ledger sub-block carries its four lines. -/
theorem personaBlock_lines (j : Nat) (p : List (String × JVal))
    (lo : List (String × JVal)) (hlo : asObj (objGetD p "ledger" (.obj [])) = some lo)
    (blk : List Char) (hb : personaBlock j p = some blk) :
    hasSubstr ("### ".data ++ ((Nat.repr j).data ++ (") ".data
        ++ (pyStrOptV (objGet "name" p) ++ ['\n'])))) blk = true
    ∧ hasSubstr ("- **Role:** ".data
        ++ (pyStrV (objGetD p "role" (.str "")) ++ ['\n'])) blk = true
    ∧ hasSubstr ("- **Mandate:** ".data
        ++ (pyStrV (objGetD p "mandate" (.str "")) ++ ['\n'])) blk = true
    ∧ hasSubstr ("- **Trust Model:** ".data
        ++ (pyStrV (objGetD p "trust_model" (.str "")) ++ ['\n'])) blk = true
    ∧ hasSubstr ("- **Key Questions:**\n".data) blk = true
    ∧ hasSubstr ("- **Always-Flags:**\n".data) blk = true
    ∧ hasSubstr ("- **Blind Spots:** ".data
        ++ (pyStrV (objGetD p "blind_spots" (.str "")) ++ ['\n'])) blk = true
    ∧ hasSubstr ("  - **Current stance:** ".data
        ++ (pyStrV (objGetD lo "current_stance" (.str "")) ++ ['\n'])) blk = true
    ∧ hasSubstr ("  - **Warnings:** ".data
        ++ (pyStrV (objGetD lo "warnings" (.str "")) ++ ['\n'])) blk = true
    ∧ hasSubstr ("  - **Open questions:** ".data
        ++ (pyStrV (objGetD lo "open_questions" (.str "")) ++ ['\n'])) blk = true
    ∧ hasSubstr ("  - **Last updated:** ".data
        ++ (pyStrV (objGetD lo "last_updated" (.str "")) ++ ['\n', '\n'])) blk = true := by
  simp only [personaBlock] at hb
  split at hb
  · exact absurd hb (by simp)
  · rename_i lo' hlo'
    rw [hlo] at hlo'
    obtain rfl : lo = lo' := (Option.some.injEq _ _).mp hlo'
    simp only [Option.some.injEq] at hb
    subst hb
    obtain ⟨hl1, hl2, hl3, hl4⟩ := ledgerBlock_lines lo
    refine ⟨hasSubstr_seg _ _, ?_, ?_, ?_, ?_, ?_, ?_, ?_, ?_, ?_, ?_⟩
    · exact hasSubstr_append_right _ _ _ (hasSubstr_seg _ _)
    · exact hasSubstr_append_right _ _ _ (hasSubstr_append_right _ _ _ (hasSubstr_seg _ _))
    · exact hasSubstr_append_right _ _ _ (hasSubstr_append_right _ _ _
        (hasSubstr_append_right _ _ _ (hasSubstr_seg _ _)))
    · exact hasSubstr_append_right _ _ _ (hasSubstr_append_right _ _ _
        (hasSubstr_append_right _ _ _ (hasSubstr_append_right _ _ _ (hasSubstr_seg _ _))))
    · exact hasSubstr_append_right _ _ _ (hasSubstr_append_right _ _ _
        (hasSubstr_append_right _ _ _ (hasSubstr_append_right _ _ _
          (hasSubstr_append_right _ _ _ (hasSubstr_append_right _ _ _
            (hasSubstr_seg _ _))))))
    · exact hasSubstr_append_right _ _ _ (hasSubstr_append_right _ _ _
        (hasSubstr_append_right _ _ _ (hasSubstr_append_right _ _ _
          (hasSubstr_append_right _ _ _ (hasSubstr_append_right _ _ _
            (hasSubstr_append_right _ _ _ (hasSubstr_append_right _ _ _
              (hasSubstr_seg _ _))))))))
    · exact hasSubstr_append_right _ _ _ (hasSubstr_append_right _ _ _
        (hasSubstr_append_right _ _ _ (hasSubstr_append_right _ _ _
          (hasSubstr_append_right _ _ _ (hasSubstr_append_right _ _ _
            (hasSubstr_append_right _ _ _ (hasSubstr_append_right _ _ _
              (hasSubstr_append_right _ _ _ hl1))))))))
    · exact hasSubstr_append_right _ _ _ (hasSubstr_append_right _ _ _
        (hasSubstr_append_right _ _ _ (hasSubstr_append_right _ _ _
          (hasSubstr_append_right _ _ _ (hasSubstr_append_right _ _ _
            (hasSubstr_append_right _ _ _ (hasSubstr_append_right _ _ _
              (hasSubstr_append_right _ _ _ hl2))))))))
    · exact hasSubstr_append_right _ _ _ (hasSubstr_append_right _ _ _
        (hasSubstr_append_right _ _ _ (hasSubstr_append_right _ _ _
          (hasSubstr_append_right _ _ _ (hasSubstr_append_right _ _ _
            (hasSubstr_append_right _ _ _ (hasSubstr_append_right _ _ _
              (hasSubstr_append_right _ _ _ hl3))))))))
    · exact hasSubstr_append_right _ _ _ (hasSubstr_append_right _ _ _
        (hasSubstr_append_right _ _ _ (hasSubstr_append_right _ _ _
          (hasSubstr_append_right _ _ _ (hasSubstr_append_right _ _ _
            (hasSubstr_append_right _ _ _ (hasSubstr_append_right _ _ _
              (hasSubstr_append_right _ _ _ hl4))))))))

/-- All four labeled lines of a tension's block occur in it, each rendering
its `tension.get` value (`None` when the field is missing). -/
theorem tensionBlock_lines (t : List (String × JVal)) :
    hasSubstr ("- Tension: ".data
        ++ (pyStrOptV (objGet "description" t) ++ ['\n'])) (tensionBlock t) = true
    ∧ hasSubstr ("  - Options: ".data
        ++ (pyStrOptV (objGet "options" t) ++ ['\n'])) (tensionBlock t) = true
    ∧ hasSubstr ("  - Current resolution: ".data
        ++ (pyStrOptV (objGet "resolution" t) ++ ['\n'])) (tensionBlock t) = true
    ∧ hasSubstr ("  - Residual risk: ".data
        ++ (pyStrOptV (objGet "residual_risk" t) ++ ['\n'])) (tensionBlock t) = true := by
  refine ⟨hasSubstr_seg _ _, ?_, ?_, ?_⟩
  · exact hasSubstr_append_right _ _ _ (hasSubstr_seg _ _)
  · exact hasSubstr_append_right _ _ _ (hasSubstr_append_right _ _ _ (hasSubstr_seg _ _))
  · exact hasSubstr_append_right _ _ _ (hasSubstr_append_right _ _ _
      (hasSubstr_append_right _ _ _ (hasSubstr_self _)))

/-! ## Claim C2: labeled fields in the encoded document -/

/-- C2, counterexample: the claim "any field missing from the in-memory Roster
renders as an empty string on its labeled line (never any other substitute
text)" fails as stated.  For a Roster with one tension that is an empty
object, the rendered document carries the line `- Tension: None` (Python's
`tension.get('description')` has no default, so the missing field prints as
`None`), and the empty-string labeled line `- Tension: ` followed by a newline
appears nowhere. -/
theorem c2_counterexample :
    hasSubstr "- Tension: None".data
        ((save_roster (.obj [("tensions", .arr [.obj []])])).getD []) = true
    ∧ hasSubstr "- Tension: \n".data
        ((save_roster (.obj [("tensions", .arr [.obj []])])).getD []) = false := by
  constructor
  · decide
  · decide

/-- C2, amended: in the document rendered for any Roster the renderer accepts,
every labeled field line always appears, rendering the field's value; a field
missing from the Roster renders as the empty string on its labeled line,
except that a missing meta `name` renders as `Roster Steward`, while a missing
persona `name` (in the numbered heading) and the four Tension fields render as
the text `None`. -/
theorem c2_labeled_fields (d : List (String × JVal)) (pr : List Char)
    (hpr : renderProse (.obj d) = some pr)
    (meta : List (String × JVal))
    (hmeta : asObj (objGetD d "meta" (.obj [])) = some meta) :
    (hasSubstr ("- **Name:** ".data
        ++ (pyStrV (objGetD meta "name" (.str "Roster Steward")) ++ ['\n'])) pr = true
      ∧ hasSubstr ("- **Mandate:** ".data
        ++ (pyStrV (objGetD meta "mandate" (.str "")) ++ ['\n'])) pr = true
      ∧ hasSubstr ("- **Rotation Rules:** ".data
        ++ (pyStrV (objGetD meta "rotation_rules" (.str "")) ++ ['\n'])) pr = true
      ∧ hasSubstr ("- **Checks:** ".data
        ++ (pyStrV (objGetD meta "checks" (.str "")) ++ ['\n', '\n'])) pr = true)
    ∧ (∀ p ∈ pyIter (objGetD d "personas" (.arr [])), ∀ po, p = JVal.obj po →
        ∀ lo, asObj (objGetD po "ledger" (.obj [])) = some lo →
          (∃ j, hasSubstr ("### ".data ++ ((Nat.repr j).data ++ (") ".data
              ++ (pyStrOptV (objGet "name" po) ++ ['\n'])))) pr = true)
          ∧ hasSubstr ("- **Role:** ".data
              ++ (pyStrV (objGetD po "role" (.str "")) ++ ['\n'])) pr = true
          ∧ hasSubstr ("- **Mandate:** ".data
              ++ (pyStrV (objGetD po "mandate" (.str "")) ++ ['\n'])) pr = true
          ∧ hasSubstr ("- **Trust Model:** ".data
              ++ (pyStrV (objGetD po "trust_model" (.str "")) ++ ['\n'])) pr = true
          ∧ hasSubstr ("- **Key Questions:**\n".data) pr = true
          ∧ hasSubstr ("- **Always-Flags:**\n".data) pr = true
          ∧ hasSubstr ("- **Blind Spots:** ".data
              ++ (pyStrV (objGetD po "blind_spots" (.str "")) ++ ['\n'])) pr = true
          ∧ hasSubstr ("  - **Current stance:** ".data
              ++ (pyStrV (objGetD lo "current_stance" (.str "")) ++ ['\n'])) pr = true
          ∧ hasSubstr ("  - **Warnings:** ".data
              ++ (pyStrV (objGetD lo "warnings" (.str "")) ++ ['\n'])) pr = true
          ∧ hasSubstr ("  - **Open questions:** ".data
              ++ (pyStrV (objGetD lo "open_questions" (.str "")) ++ ['\n'])) pr = true
          ∧ hasSubstr ("  - **Last updated:** ".data
              ++ (pyStrV (objGetD lo "last_updated" (.str "")) ++ ['\n', '\n'])) pr = true)
    ∧ (∀ t ∈ pyIter (objGetD d "tensions" (.arr [])), ∀ to_, t = JVal.obj to_ →
        hasSubstr ("- Tension: ".data
            ++ (pyStrOptV (objGet "description" to_) ++ ['\n'])) pr = true
        ∧ hasSubstr ("  - Options: ".data
            ++ (pyStrOptV (objGet "options" to_) ++ ['\n'])) pr = true
        ∧ hasSubstr ("  - Current resolution: ".data
            ++ (pyStrOptV (objGet "resolution" to_) ++ ['\n'])) pr = true
        ∧ hasSubstr ("  - Residual risk: ".data
            ++ (pyStrOptV (objGet "residual_risk" to_) ++ ['\n'])) pr = true) := by
  simp only [renderProse, asObj] at hpr
  split at hpr
  · exact absurd hpr (by simp)
  · rename_i meta' hmeta'
    split at hpr
    · exact absurd hpr (by simp)
    · rename_i pBlk hpBlk
      split at hpr
      · exact absurd hpr (by simp)
      · rename_i tBlk htBlk
        simp only [Option.some.injEq] at hpr
        have hmeta2 : asObj (objGetD d "meta" (JVal.obj [])) = some meta' := hmeta'
        obtain rfl : meta = meta' := by
          rw [hmeta] at hmeta2
          exact (Option.some.injEq _ _).mp hmeta2
        have liftM : ∀ L : List Char, hasSubstr L (metaBlock meta) = true →
            hasSubstr L pr = true := by
          intro L hL
          rw [← hpr]
          exact hasSubstr_append_right _ _ _ (hasSubstr_append_left _ _ _ hL)
        have liftP : ∀ L : List Char, hasSubstr L pBlk = true →
            hasSubstr L pr = true := by
          intro L hL
          rw [← hpr]
          exact hasSubstr_append_right _ _ _ (hasSubstr_append_right _ _ _
            (hasSubstr_append_right _ _ _ (hasSubstr_append_left _ _ _ hL)))
        have liftT : ∀ L : List Char, hasSubstr L tBlk = true →
            hasSubstr L pr = true := by
          intro L hL
          rw [← hpr]
          exact hasSubstr_append_right _ _ _ (hasSubstr_append_right _ _ _
            (hasSubstr_append_right _ _ _ (hasSubstr_append_right _ _ _
              (hasSubstr_append_right _ _ _ (hasSubstr_append_right _ _ _
                (hasSubstr_append_right _ _ _ (hasSubstr_append_right _ _ _ hL)))))))
        obtain ⟨m1, m2, m3, m4⟩ := metaBlock_lines meta
        refine ⟨⟨liftM _ m1, liftM _ m2, liftM _ m3, liftM _ m4⟩, ?_, ?_⟩
        · intro p hp po hpo lo hlo
          obtain ⟨j, blk, a, c, hblk, hdec⟩ :=
            personasBlocks_contains _ 1 pBlk hpBlk p hp po hpo
          obtain ⟨l0, l1, l2, l3, l4, l5, l6, l7, l8, l9, l10⟩ :=
            personaBlock_lines j po lo hlo blk hblk
          exact ⟨⟨j, liftP _ (hasSubstr_embed l0 a c pBlk hdec)⟩,
            liftP _ (hasSubstr_embed l1 a c pBlk hdec),
            liftP _ (hasSubstr_embed l2 a c pBlk hdec),
            liftP _ (hasSubstr_embed l3 a c pBlk hdec),
            liftP _ (hasSubstr_embed l4 a c pBlk hdec),
            liftP _ (hasSubstr_embed l5 a c pBlk hdec),
            liftP _ (hasSubstr_embed l6 a c pBlk hdec),
            liftP _ (hasSubstr_embed l7 a c pBlk hdec),
            liftP _ (hasSubstr_embed l8 a c pBlk hdec),
            liftP _ (hasSubstr_embed l9 a c pBlk hdec),
            liftP _ (hasSubstr_embed l10 a c pBlk hdec)⟩
        · intro t ht to_ hto
          obtain ⟨a, c, hdec⟩ := tensionsBlocks_contains _ tBlk htBlk t ht to_ hto
          obtain ⟨t1, t2, t3, t4⟩ := tensionBlock_lines to_
          exact ⟨liftT _ (hasSubstr_embed t1 a c tBlk hdec),
            liftT _ (hasSubstr_embed t2 a c tBlk hdec),
            liftT _ (hasSubstr_embed t3 a c tBlk hdec),
            liftT _ (hasSubstr_embed t4 a c tBlk hdec)⟩

theorem c2_labeled_fields_witness :
    hasSubstr ("- **Mandate:** ".data ++ (pyStrV (objGetD [] "mandate" (.str "")) ++ ['\n']))
      ((renderProse (.obj [("personas", .arr [.obj []])])).getD []) = true :=
  ((c2_labeled_fields [("personas", .arr [.obj []])]
    ((renderProse (.obj [("personas", .arr [.obj []])])).getD [])
    (by decide) [] (by decide)).1).2.1

/-! ## Claim C3: the validate command -/

/-- C3: `validate` checks `count(personas) >= 3` on the loaded Roster: with
fewer than 3 personas it prints the failure diagnostic and exits with status
1, with 3 or more it prints the confirmation and exits with status 0, and in
neither case does it write the persisted document. -/
theorem c3_validate (st : Option (List Char)) (data : JVal) (d : List (String × JVal))
    (hload : loadData st = .ok data) (hobj : data = .obj d) :
    (pyLen (objGetD d "personas" (.arr [])) < 3 →
      runValidate st = .ok ⟨none,
        ["Validation failed: At least 3 personas required for non-atomic tasks.".data], 1⟩)
    ∧ (3 ≤ pyLen (objGetD d "personas" (.arr [])) →
      runValidate st = .ok ⟨none, ["Validation passed.".data], 0⟩)
    ∧ fileAfter st (runValidate st) = st := by
  subst hobj
  refine ⟨?_, ?_, ?_⟩
  · intro hlt
    simp [runValidate, hload, asObj, hlt]
  · intro hge
    simp [runValidate, hload, asObj, Nat.not_lt.mpr hge]
  · by_cases hlt : pyLen (objGetD d "personas" (.arr [])) < 3
    · simp [fileAfter, runValidate, hload, asObj, hlt]
    · simp [fileAfter, runValidate, hload, asObj, hlt]

theorem c3_validate_witness :
    runValidate (some "<!-- ROSTER_JSON: \x7b\"personas\": [\"a\", \"b\", \"c\"]\x7d -->".data)
        = .ok ⟨none, ["Validation passed.".data], 0⟩
      ∧ runValidate none = .ok ⟨none,
          ["Validation failed: At least 3 personas required for non-atomic tasks.".data], 1⟩ :=
  ⟨(c3_validate (some "<!-- ROSTER_JSON: \x7b\"personas\": [\"a\", \"b\", \"c\"]\x7d -->".data)
      (.obj [("personas", .arr [.str "a", .str "b", .str "c"])]) _
      (by decide) rfl).2.1 (by decide),
   (c3_validate none defaultRoster
      [("meta", .obj [
        ("name", .str "Roster Steward"),
        ("mandate", .str "Govern roster stability, decide when to rotate personas, and enforce protocol quality gates."),
        ("rotation_rules", .str "Max 1 swap per user turn; default is stability; rotate on domain shift or repeated failure modes."),
        ("checks", .str "Calibration (atomic/compound/systemic), utilization (no theater), decision trace required, red-team required when warranted.")]),
       ("personas", .arr []), ("rotation_history", .arr []), ("tensions", .arr [])]
      (by decide) rfl).1 (by decide)⟩

/-! ## Claim C4: update-persona, first match, shallow merge -/

/-- C4: `update-persona` locates the first persona in sequence order whose
`name` equals the given name, merges the patch object's keys into it (whole
field overwrite, new keys appended), and leaves every later persona —
including later personas with the same name, since `post` is arbitrary here —
and every other Roster key unchanged. -/
theorem c4_update_persona (name : String) (patch : JVal)
    (patchO : List (String × JVal)) (hpatch : asObj patch = some patchO)
    (hnd : keysNodup patchO = true) (d : List (String × JVal))
    (pre post : List JVal) (po : List (String × JVal)) (v : JVal)
    (hper : objGet "personas" d = some (.arr (pre ++ JVal.obj po :: post)))
    (hpre : ∀ p ∈ pre, missName name p)
    (hget : objGet "name" po = some v) (hv : jvalEqStr v name = true) :
    updatePersonasField (updateLoop name patch) (.obj d)
      = .ok (.obj (dictInsert d "personas"
          (.arr (pre ++ JVal.obj (dictUpdate po patchO) :: post))))
    ∧ (∀ k, objGet k (dictUpdate po patchO)
        = match objGet k patchO with
          | some w => some w
          | none => objGet k po)
    ∧ (∀ k, k ≠ "personas" →
        objGet k (dictInsert d "personas"
          (.arr (pre ++ JVal.obj (dictUpdate po patchO) :: post))) = objGet k d) := by
  refine ⟨?_, ?_, ?_⟩
  · simp [updatePersonasField, hper,
      updateLoop_found name patch patchO hpatch po v hget hv pre hpre post]
  · exact objGet_dictUpdate patchO po hnd
  · intro k hk
    rw [objGet_dictInsert]
    exact if_neg (fun hh => hk hh.symm)

theorem c4_update_persona_witness :
    updatePersonasField
        (updateLoop "X" (.obj [("role", .str "r3")]))
        (.obj [("personas", .arr [.obj [("name", .str "X"), ("role", .str "r1")],
          .obj [("name", .str "X"), ("role", .str "r2")]])])
      = .ok (.obj [("personas", .arr [.obj [("name", .str "X"), ("role", .str "r3")],
          .obj [("name", .str "X"), ("role", .str "r2")]])]) :=
  ((c4_update_persona "X" (.obj [("role", .str "r3")]) [("role", .str "r3")]
    (by decide) (by decide)
    [("personas", .arr [.obj [("name", .str "X"), ("role", .str "r1")],
      .obj [("name", .str "X"), ("role", .str "r2")]])]
    [] [.obj [("name", .str "X"), ("role", .str "r2")]]
    [("name", .str "X"), ("role", .str "r1")] (.str "X")
    (by decide) (fun p hp => absurd hp (List.not_mem_nil p))
    (by decide) (by decide)).1).trans (by decide)

/-! ## Claim C5: parse failure aborts before any write -/

/-- C5: when the `--patch`/`--spec` text is not valid JSON, each of the three
mutating commands aborts with an exception and the persisted document is
exactly as it was; when the document itself loaded fine, the exception is
precisely the parse error from `json.loads` on the argument. -/
theorem c5_parse_atomicity (name : String) (txt : List Char) (st : Option (List Char))
    (hbad : loads txt = none) :
    fileAfter st (runUpdatePersona name txt st) = st
    ∧ fileAfter st (runAddPersona txt st) = st
    ∧ fileAfter st (runUpdateLedger name txt st) = st
    ∧ (∀ data, loadData st = .ok data →
        runUpdatePersona name txt st = .error .parseError
        ∧ runAddPersona txt st = .error .parseError
        ∧ runUpdateLedger name txt st = .error .parseError) := by
  cases hload : loadData st with
  | error e =>
    refine ⟨?_, ?_, ?_, ?_⟩
    · simp [fileAfter, runUpdatePersona, hload]
    · simp [fileAfter, runAddPersona, hload]
    · simp [fileAfter, runUpdateLedger, hload]
    · intro data hdata
      exact absurd hdata (by simp)
  | ok data =>
    refine ⟨?_, ?_, ?_, ?_⟩
    · simp [fileAfter, runUpdatePersona, hload, hbad]
    · simp [fileAfter, runAddPersona, hload, hbad]
    · simp [fileAfter, runUpdateLedger, hload, hbad]
    · intro data' _
      exact ⟨by simp [runUpdatePersona, hload, hbad],
        by simp [runAddPersona, hload, hbad],
        by simp [runUpdateLedger, hload, hbad]⟩

theorem c5_parse_atomicity_witness :
    fileAfter (some "x".data) (runUpdatePersona "X" "\x7b".data (some "x".data))
        = some "x".data
      ∧ runAddPersona "\x7b".data (some "x".data) = .error .parseError := by
  have h := c5_parse_atomicity "X" "\x7b".data (some "x".data) (by decide)
  exact ⟨h.1, (h.2.2.2 (.obj [("meta", .obj [
    ("name", .str "Roster Steward"),
    ("mandate", .str "Govern roster stability, decide when to rotate personas, and enforce protocol quality gates."),
    ("rotation_rules", .str "Max 1 swap per user turn; default is stability; rotate on domain shift or repeated failure modes."),
    ("checks", .str "Calibration (atomic/compound/systemic), utilization (no theater), decision trace required, red-team required when warranted.")]),
    ("personas", .arr []), ("rotation_history", .arr []), ("tensions", .arr [])])
    (by decide)).2.1⟩

/-! ## Claim C6: unmatched-name updates are silent no-ops that still persist -/

/-- C6: when no persona's `name` matches, `update-persona` and `update-ledger`
leave the Roster unchanged, print nothing, and still re-encode and rewrite the
persisted document: the command succeeds with exit 0, empty output, and writes
exactly the `save_roster` rendering of the unchanged data. -/
theorem c6_noop_persists (name : String) (txt : List Char) (st : Option (List Char))
    (data : JVal) (d : List (String × JVal)) (ps : List JVal)
    (patch : JVal) (md : List Char)
    (hload : loadData st = .ok data) (hobj : data = .obj d)
    (hnd : keysNodup d = true)
    (hper : objGet "personas" d = some (.arr ps))
    (hmiss : ∀ p ∈ ps, missName name p)
    (hloads : loads txt = some patch)
    (hmd : save_roster data = some md) :
    runUpdatePersona name txt st = .ok ⟨some md, [], 0⟩
    ∧ runUpdateLedger name txt st = .ok ⟨some md, [], 0⟩ := by
  subst hobj
  have hins : dictInsert d "personas" (.arr ps) = d :=
    dictInsert_self d "personas" (.arr ps) hnd hper
  have hupd : updatePersonasField (updateLoop name patch) (.obj d) = .ok (.obj d) := by
    simp [updatePersonasField, hper, updateLoop_noMatch name patch ps hmiss, hins]
  have hled : updatePersonasField (ledgerLoop name patch) (.obj d) = .ok (.obj d) := by
    simp [updatePersonasField, hper, ledgerLoop_noMatch name patch ps hmiss, hins]
  exact ⟨by simp [runUpdatePersona, hload, hloads, hupd, hmd],
    by simp [runUpdateLedger, hload, hloads, hled, hmd]⟩

theorem c6_noop_persists_witness :
    runUpdatePersona "Nonexistent" "\x7b\"role\": \"z\"\x7d".data
        (some "<!-- ROSTER_JSON: \x7b\"personas\": [\x7b\"name\": \"X\"\x7d]\x7d -->".data)
      = .ok ⟨some ((save_roster (.obj [("personas", .arr [.obj [("name", .str "X")]])])).getD []),
          [], 0⟩ :=
  (c6_noop_persists "Nonexistent" "\x7b\"role\": \"z\"\x7d".data
    (some "<!-- ROSTER_JSON: \x7b\"personas\": [\x7b\"name\": \"X\"\x7d]\x7d -->".data)
    (.obj [("personas", .arr [.obj [("name", .str "X")]])])
    [("personas", .arr [.obj [("name", .str "X")]])]
    [.obj [("name", .str "X")]]
    (.obj [("role", .str "z")])
    ((save_roster (.obj [("personas", .arr [.obj [("name", .str "X")]])])).getD [])
    (by decide) rfl (by decide) (by decide)
    (by
      intro p hp
      rw [List.mem_singleton.mp hp]
      exact ⟨[("name", .str "X")], .str "X", rfl, by decide, by decide⟩)
    (by decide) (by decide)).1

theorem objGet_append (k : String) (a b : List (String × JVal)) :
    objGet k (a ++ b)
      = match objGet k a with
        | some v => some v
        | none => objGet k b := by
  induction a with
  | nil => simp [objGet]
  | cons kv rest ih =>
    obtain ⟨k1, v1⟩ := kv
    by_cases h1 : k1 = k
    · simp [objGet, h1]
    · simp only [List.cons_append, objGet, if_neg h1]
      exact ih

/-! ## Claim C7: update-ledger merges into the ledger sub-object -/

/-- C7: `update-ledger` merges the patch keys into the first name-matching
persona's `ledger` sub-object — creating it when absent, so a patch on a
persona with no ledger yields exactly the patch as the new ledger — and
leaves all non-ledger fields of that persona and all other personas
unchanged. -/
theorem c7_update_ledger (name : String) (patch : JVal)
    (patchO : List (String × JVal)) (hpatch : asObj patch = some patchO)
    (hndp : keysNodup patchO = true) (d : List (String × JVal))
    (pre post : List JVal) (po : List (String × JVal)) (v : JVal)
    (hper : objGet "personas" d = some (.arr (pre ++ JVal.obj po :: post)))
    (hpre : ∀ p ∈ pre, missName name p)
    (hget : objGet "name" po = some v) (hv : jvalEqStr v name = true) :
    (objGet "ledger" po = none →
      updatePersonasField (ledgerLoop name patch) (.obj d)
        = .ok (.obj (dictInsert d "personas"
            (.arr (pre ++ JVal.obj (po ++ [("ledger", .obj patchO)]) :: post))))
      ∧ objGet "ledger" (po ++ [("ledger", JVal.obj patchO)]) = some (.obj patchO)
      ∧ (∀ k, k ≠ "ledger" →
          objGet k (po ++ [("ledger", JVal.obj patchO)]) = objGet k po))
    ∧ (∀ lo, objGet "ledger" po = some (.obj lo) →
        updatePersonasField (ledgerLoop name patch) (.obj d)
          = .ok (.obj (dictInsert d "personas"
              (.arr (pre
                ++ JVal.obj (dictInsert po "ledger" (.obj (dictUpdate lo patchO)))
                :: post))))
        ∧ (∀ k, objGet k (dictUpdate lo patchO)
            = match objGet k patchO with
              | some w => some w
              | none => objGet k lo)
        ∧ (∀ k, k ≠ "ledger" →
            objGet k (dictInsert po "ledger" (.obj (dictUpdate lo patchO)))
              = objGet k po)) := by
  have hdictify : dictUpdate [] patchO = patchO := dictify_eq patchO hndp
  constructor
  · intro habs
    refine ⟨?_, ?_, ?_⟩
    · have := ledgerLoop_found_absent name patch patchO hpatch po v hget hv habs
        pre hpre post
      rw [hdictify] at this
      simp [updatePersonasField, hper, this]
    · rw [objGet_append]
      rw [habs]
      simp [objGet]
    · intro k hk
      rw [objGet_append]
      cases hpo : objGet k po with
      | some w => rfl
      | none =>
        simp only [objGet]
        rw [if_neg (fun hh => hk (Eq.symm hh))]
  · intro lo hlo
    refine ⟨?_, objGet_dictUpdate patchO lo hndp, ?_⟩
    · simp [updatePersonasField, hper,
        ledgerLoop_found_present name patch patchO hpatch po lo v hget hv hlo pre hpre post]
    · intro k hk
      rw [objGet_dictInsert]
      exact if_neg (fun hh => hk hh.symm)

theorem c7_update_ledger_witness :
    updatePersonasField (ledgerLoop "X" (.obj [("warnings", .str "w1")]))
        (.obj [("personas", .arr [.obj [("name", .str "X")]])])
      = .ok (.obj [("personas", .arr [.obj [("name", .str "X"),
          ("ledger", .obj [("warnings", .str "w1")])]])]) :=
  (((c7_update_ledger "X" (.obj [("warnings", .str "w1")]) [("warnings", .str "w1")]
    (by decide) (by decide)
    [("personas", .arr [.obj [("name", .str "X")]])]
    [] [] [("name", .str "X")] (.str "X")
    (by decide) (fun p hp => absurd hp (List.not_mem_nil p))
    (by decide) (by decide)).1 (by decide)).1).trans (by decide)

/-! ## Claim C8: decode totality and failure mode -/

/-- C8: decoding an absent document yields the empty result; decoding a
document without the marker token yields the empty result; and when the
marker is present, a block that is not valid JSON makes the decode fail with
the decode error propagated to the caller, while a valid block decodes to its
value (no partial recovery). -/
theorem c8_decode (content : List Char) :
    parse_roster none = .ok (.obj [])
    ∧ (hasSubstr MARKER content = false → parse_roster (some content) = .ok (.obj []))
    ∧ (hasSubstr MARKER content = true →
        (loads (extractBlock content) = none → parse_roster (some content) = .error ())
        ∧ ∀ v, loads (extractBlock content) = some v →
            parse_roster (some content) = .ok v) := by
  refine ⟨rfl, ?_, ?_⟩
  · intro hno
    simp [parse_roster, hno]
  · intro hyes
    exact ⟨fun hbad => by simp [parse_roster, hyes, hbad],
      fun v hv => by simp [parse_roster, hyes, hv]⟩

theorem c8_decode_witness :
    parse_roster (some "no marker here".data) = .ok (.obj [])
    ∧ parse_roster (some "<!-- ROSTER_JSON: oops -->".data) = .error () := by
  have h := c8_decode "no marker here".data
  have h2 := c8_decode "<!-- ROSTER_JSON: oops -->".data
  exact ⟨h.2.1 (by decide), (h2.2.2 (by decide)).1 (by decide)⟩

/-! ## Claim C9: add-persona appends without a uniqueness check -/

/-- C9: `add-persona` appends the given specification — any value, with no
uniqueness check against existing names — at the end of the personas
sequence, preserving the order and contents of all existing personas and
every other Roster key. -/
theorem c9_add_persona (spec : JVal) (d : List (String × JVal)) (ps : List JVal)
    (hper : objGet "personas" d = some (.arr ps)) :
    addPersonaData spec (.obj d)
      = .ok (.obj (dictInsert d "personas" (.arr (ps ++ [spec]))))
    ∧ objGet "personas" (dictInsert d "personas" (.arr (ps ++ [spec])))
        = some (.arr (ps ++ [spec]))
    ∧ (∀ k, k ≠ "personas" →
        objGet k (dictInsert d "personas" (.arr (ps ++ [spec]))) = objGet k d) := by
  refine ⟨by simp [addPersonaData, hper], ?_, ?_⟩
  · rw [objGet_dictInsert]
    simp
  · intro k hk
    rw [objGet_dictInsert]
    exact if_neg (fun hh => hk hh.symm)

theorem c9_add_persona_witness :
    (addPersonaData (.obj [("name", .str "A")]) (.obj [("personas", .arr [])])
      = .ok (.obj [("personas", .arr [.obj [("name", .str "A")]])]))
    ∧ (addPersonaData (.obj [("name", .str "B")])
        (.obj [("personas", .arr [.obj [("name", .str "A")]])])
      = .ok (.obj [("personas",
          .arr [.obj [("name", .str "A")], .obj [("name", .str "B")]])])) :=
  ⟨((c9_add_persona (.obj [("name", .str "A")]) [("personas", .arr [])] []
      (by decide)).1).trans (by decide),
   ((c9_add_persona (.obj [("name", .str "B")])
      [("personas", .arr [.obj [("name", .str "A")]])] [.obj [("name", .str "A")]]
      (by decide)).1).trans (by decide)⟩

/-! ## Claim C10: a persona without a name key crashes the update commands -/

/-- C10: `update-persona` and `update-ledger` read `p["name"]` from every
persona they walk past; a dict element without a `name` key, sitting before
any match, raises a `KeyError` — not a skip and not the documented silent
no-op — and nothing is persisted. -/
theorem c10_missing_name (name : String) (txt : List Char) (st : Option (List Char))
    (data : JVal) (d : List (String × JVal)) (pre rest : List JVal)
    (bad : List (String × JVal)) (patch : JVal)
    (hload : loadData st = .ok data) (hobj : data = .obj d)
    (hper : objGet "personas" d = some (.arr (pre ++ JVal.obj bad :: rest)))
    (hpre : ∀ p ∈ pre, missName name p)
    (hbad : objGet "name" bad = none)
    (hloads : loads txt = some patch) :
    runUpdatePersona name txt st = .error .keyError
    ∧ runUpdateLedger name txt st = .error .keyError
    ∧ fileAfter st (runUpdatePersona name txt st) = st
    ∧ fileAfter st (runUpdateLedger name txt st) = st := by
  subst hobj
  have hupd : updatePersonasField (updateLoop name patch) (.obj d) = .error .keyError := by
    simp [updatePersonasField, hper, updateLoop_keyError name patch bad hbad pre hpre rest]
  have hled : updatePersonasField (ledgerLoop name patch) (.obj d) = .error .keyError := by
    simp [updatePersonasField, hper, ledgerLoop_keyError name patch bad hbad pre hpre rest]
  have h1 : runUpdatePersona name txt st = .error .keyError := by
    simp [runUpdatePersona, hload, hloads, hupd]
  have h2 : runUpdateLedger name txt st = .error .keyError := by
    simp [runUpdateLedger, hload, hloads, hled]
  exact ⟨h1, h2, by simp [fileAfter, h1], by simp [fileAfter, h2]⟩

theorem c10_missing_name_witness :
    runUpdatePersona "X" "\x7b\"role\": \"z\"\x7d".data
        (some "<!-- ROSTER_JSON: \x7b\"personas\": [\x7b\"role\": \"r\"\x7d]\x7d -->".data)
      = .error .keyError :=
  (c10_missing_name "X" "\x7b\"role\": \"z\"\x7d".data
    (some "<!-- ROSTER_JSON: \x7b\"personas\": [\x7b\"role\": \"r\"\x7d]\x7d -->".data)
    (.obj [("personas", .arr [.obj [("role", .str "r")]])])
    [("personas", .arr [.obj [("role", .str "r")]])]
    [] [] [("role", .str "r")] (.obj [("role", .str "z")])
    (by decide) rfl (by decide) (fun p hp => absurd hp (List.not_mem_nil p))
    (by decide) (by decide)).1

end RosterTool
